import Mathlib

/-!
Verification of the log-ingestion core of `ezvis` (Ezproxy log → DuckDB →
dashboard): the line parser (`src/parser.rs`), the bulk-insert loop
(`src/db.rs::insert_rows`) and the `Import` arm of `src/main.rs`.

Strings are modelled as `List Char`.  The Rust `regex` crate's semantics
(leftmost, Perl-style greedy with backtracking) are embedded as a small
backtracking engine over an AST that is expressive enough for the single
pattern used by the source.  Fallible Rust operations return `Option`.
-/

namespace Ezvis

/-- Convert a string literal into the `List Char` representation used below. -/
def strL (s : String) : List Char := s.data

/-!
## Character classes

`rsSpace` is the Unicode `White_Space` property: this is simultaneously the
`regex` crate's `\s` class and the set trimmed by Rust's `str::trim`
(both are defined by `White_Space`).
-/

/-- The Unicode `White_Space` set (code points 0x9-0xD, 0x20, 0x85, 0xA0,
0x1680, 0x2000-0x200A, 0x2028, 0x2029, 0x202F, 0x205F, 0x3000): Rust's
`char::is_whitespace` and the `regex` crate's `\s`. -/
def rsSpace (c : Char) : Bool :=
  c.toNat == 32 || (9 ≤ c.toNat && c.toNat ≤ 13) ||
  c.toNat == 0x85 || c.toNat == 0xA0 || c.toNat == 0x1680 ||
  (0x2000 ≤ c.toNat && c.toNat ≤ 0x200A) || c.toNat == 0x2028 || c.toNat == 0x2029 ||
  c.toNat == 0x202F || c.toNat == 0x205F || c.toNat == 0x3000

/-- ASCII digit `0`-`9` (code points 48-57).  NOTE: the `regex` crate's `\d`
is the Unicode `Nd` class, a superset of this; the difference is immaterial
for `parse_line`'s overall success/failure because Rust's `i32::from_str`
(applied to the same capture) accepts ASCII digits only, so a status of
non-ASCII digits fails the line in either reading.  We model `\d` as ASCII
digits. -/
def asciiDigit (c : Char) : Bool := 48 ≤ c.toNat && c.toNat ≤ 57

/-- Class of `\S` (complement of `\s`). -/
def pNS (c : Char) : Bool := !rsSpace c

/-- Class `[^\]]` used for the bracketed timestamp. -/
def pNB (c : Char) : Bool := !(c == ']')

/-- Class `[^"]` used for the three quoted groups. -/
def pNQ (c : Char) : Bool := !(c == '"')

/-!
## A backtracking regex engine

The source pattern only ever applies quantifiers to single character classes,
so the AST restricts `+`, `*` and `{n}` to classes; this keeps the engine
total while preserving the crate's greedy leftmost-first semantics exactly
for this pattern.
-/

/-- Regex AST: literals, class quantifiers, capture groups, concatenation. -/
inductive RE where
  | eps : RE
  | lit : Char → RE
  | plus : (Char → Bool) → RE
  | star : (Char → Bool) → RE
  | rep : (Char → Bool) → Nat → RE
  | grp : Nat → RE → RE
  | cat : RE → RE → RE

/-- Length of the maximal prefix of `l` all of whose characters satisfy `p`. -/
def runLen (p : Char → Bool) : List Char → Nat
  | [] => 0
  | c :: cs => if p c then runLen p cs + 1 else 0

/-- First success of `f` over a list of candidates, in order. -/
def firstSome (f : Nat → Option α) : List Nat → Option α
  | [] => none
  | i :: is =>
    match f i with
    | some r => some r
    | none => firstSome f is

/-- Captured groups: association list from group index to captured text. -/
abbrev Caps := List (Nat × List Char)

/-- The backtracking matcher, in continuation-passing style.  Greedy
quantifiers try the longest consumption first and backtrack downwards,
mirroring the `regex` crate's Perl-like capture semantics. -/
def matchRe : RE → List Char → (List Char → Caps → Option Caps) → Caps → Option Caps
  | .eps, s, k, caps => k s caps
  | .lit c, s, k, caps =>
    match s with
    | [] => none
    | d :: rest => if d = c then k rest caps else none
  | .plus p, s, k, caps =>
    firstSome (fun i => k (s.drop i) caps) ((List.range' 1 (runLen p s)).reverse)
  | .star p, s, k, caps =>
    firstSome (fun i => k (s.drop i) caps) ((List.range (runLen p s + 1)).reverse)
  | .rep p n, s, k, caps =>
    if n ≤ runLen p s then k (s.drop n) caps else none
  | .grp i r, s, k, caps =>
    matchRe r s (fun s' caps' => k s' ((i, s.take (s.length - s'.length)) :: caps')) caps
  | .cat a b, s, k, caps =>
    matchRe a s (fun s' caps' => matchRe b s' k caps') caps

/-- Concatenate a list of regexes. -/
def cats (l : List RE) : RE := l.foldr .cat .eps

/-- The line grammar of `parse_line` (src/parser.rs):
`^(\S+)\s+(\S+)\s+(\S+)\s+\[([^\]]+)\]\s+"(\S+)\s+(\S+)\s+([^"]+)"\s+(\d{3})\s+(\S+)\s+"([^"]*)"\s+"([^"]*)"\s*$` -/
def logPattern : RE := cats [
  .grp 1 (.plus pNS), .plus rsSpace,
  .grp 2 (.plus pNS), .plus rsSpace,
  .grp 3 (.plus pNS), .plus rsSpace,
  .lit '[', .grp 4 (.plus pNB), .lit ']', .plus rsSpace,
  .lit '"', .grp 5 (.plus pNS), .plus rsSpace,
  .grp 6 (.plus pNS), .plus rsSpace,
  .grp 7 (.plus pNQ), .lit '"', .plus rsSpace,
  .grp 8 (.rep asciiDigit 3), .plus rsSpace,
  .grp 9 (.plus pNS), .plus rsSpace,
  .lit '"', .grp 10 (.star pNQ), .lit '"', .plus rsSpace,
  .lit '"', .grp 11 (.star pNQ), .lit '"', .star rsSpace]

/-- `RE.captures(line)`: the pattern is anchored `^...$`, so a match must
consume the whole line. -/
def reCaptures (line : List Char) : Option Caps :=
  matchRe logPattern line (fun s caps => if s.isEmpty then some caps else none) []

/-- Look up capture group `i` (Rust's `caps[i]`; for this pattern every group
participates in any match, so the default is never used on a real match). -/
def capGet (caps : Caps) (i : Nat) : List Char :=
  ((caps.find? (fun pr => pr.1 == i)).map (fun pr => pr.2)).getD []

/-!
## Field-level parsers

Models of Rust's `i32::from_str` / `i64::from_str`, chrono's
`DateTime::parse_from_str` at the fixed format `%d/%b/%Y:%H:%M:%S %z`,
Rust's `str::trim`, and the `url` crate's `Url::parse` (best effort).
-/

/-- Digits of `l` as a natural number, `none` if empty or a non-ASCII-digit
occurs. -/
def digitsToNat (l : List Char) : Option Nat :=
  if l ≠ [] ∧ l.all asciiDigit then
    some (l.foldl (fun acc c => acc * 10 + (c.toNat - 48)) 0)
  else none

/-- Rust's signed-integer `FromStr`: optional `+`/`-` sign, then one or more
ASCII digits, value within `[lo, hi]`. -/
def parseSignedCore (lo hi : Int) (neg : Bool) (rest : List Char) : Option Int :=
  (digitsToNat rest).bind fun m =>
    let v : Int := if neg then -(m : Int) else (m : Int)
    if lo ≤ v ∧ v ≤ hi then some v else none

/-- Sign handling of Rust's signed-integer `FromStr` (an empty input fails
in `parseSignedCore` since `digitsToNat [] = none`). -/
def parseSigned (lo hi : Int) (l : List Char) : Option Int :=
  match l with
  | [] => none
  | c :: r =>
    if c = '-' then parseSignedCore lo hi true r
    else if c = '+' then parseSignedCore lo hi false r
    else parseSignedCore lo hi false l

/-- `str::parse::<i32>()`. -/
def parseI32 (l : List Char) : Option Int := parseSigned (-(2 ^ 31)) (2 ^ 31 - 1) l

/-- `str::parse::<i64>()`. -/
def parseI64 (l : List Char) : Option Int := parseSigned (-(2 ^ 63)) (2 ^ 63 - 1) l

/-- Rust's `str::trim` (strips Unicode `White_Space` from both ends). -/
def rsTrim (l : List Char) : List Char :=
  ((l.dropWhile rsSpace).reverse.dropWhile rsSpace).reverse

/-- `none_if_dash` (src/parser.rs): trim, map the literal `-` to `None`. -/
def none_if_dash (s : List Char) : Option (List Char) :=
  let t := rsTrim s
  if t = ['-'] then none else some t

/-- A parsed `chrono::DateTime<FixedOffset>` for the fixed log format:
the calendar/clock fields together with the numeric offset. -/
structure ChronoTs where
  year : Nat
  month : Nat
  day : Nat
  hour : Nat
  minute : Nat
  second : Nat
  offNeg : Bool
  offH : Nat
  offM : Nat
  deriving DecidableEq, Repr

/-- Leap year (proleptic Gregorian, as chrono). -/
def isLeap (y : Nat) : Bool := y % 4 == 0 && (y % 100 != 0 || y % 400 == 0)

/-- Days in a month. -/
def daysInMonth (y m : Nat) : Nat :=
  if m == 2 then (if isLeap y then 29 else 28)
  else if m == 4 || m == 6 || m == 9 || m == 11 then 30
  else 31

/-- Consume at most `max` leading ASCII digits (at least one), returning the
value and the remaining input: chrono's numeric-field scanner. -/
def scanNum (max : Nat) (l : List Char) : Option (Nat × List Char) :=
  let ds := (l.take max).takeWhile asciiDigit
  match ds with
  | [] => none
  | _ => (digitsToNat ds).map (fun v => (v, l.drop ds.length))

/-- Case-insensitive three-letter month abbreviation, as chrono's `%b`. -/
def monthAbbrev (l : List Char) : Option (Nat × List Char) :=
  match l with
  | a :: b :: c :: rest =>
    let low := fun (x : Char) => if 'A' ≤ x && x ≤ 'Z' then Char.ofNat (x.toNat + 32) else x
    let t := [low a, low b, low c]
    let tbl : List (List Char × Nat) :=
      [(['j','a','n'], 1), (['f','e','b'], 2), (['m','a','r'], 3), (['a','p','r'], 4),
       (['m','a','y'], 5), (['j','u','n'], 6), (['j','u','l'], 7), (['a','u','g'], 8),
       (['s','e','p'], 9), (['o','c','t'], 10), (['n','o','v'], 11), (['d','e','c'], 12)]
    match tbl.find? (fun pr => pr.1 = t) with
    | some pr => some (pr.2, rest)
    | none => none
  | _ => none

/-- Expect one literal character. -/
def expectChar (c : Char) (l : List Char) : Option (List Char) :=
  match l with
  | d :: rest => if d = c then some rest else none
  | [] => none

/-- `parse_ts` (src/parser.rs): chrono `DateTime::parse_from_str` with format
`%d/%b/%Y:%H:%M:%S %z`.  Modelled from chrono's semantics for this fixed
format, simplified where no claim depends on the detail: 1-2 digit day, 3
letter case-insensitive month, 1-4 digit year, 1-2 digit clock fields,
whitespace before a mandatory `±HHMM` or `±HH:MM` offset, calendar-validity
checks, and the whole input must be consumed. -/
def parse_ts (l : List Char) : Option ChronoTs :=
  match scanNum 2 l with
  | none => none
  | some (d, l1) =>
  match expectChar '/' l1 with
  | none => none
  | some l2 =>
  match monthAbbrev l2 with
  | none => none
  | some (mo, l3) =>
  match expectChar '/' l3 with
  | none => none
  | some l4 =>
  match scanNum 4 l4 with
  | none => none
  | some (y, l5) =>
  match expectChar ':' l5 with
  | none => none
  | some l6 =>
  match scanNum 2 l6 with
  | none => none
  | some (h, l7) =>
  match expectChar ':' l7 with
  | none => none
  | some l8 =>
  match scanNum 2 l8 with
  | none => none
  | some (mi, l9) =>
  match expectChar ':' l9 with
  | none => none
  | some l10 =>
  match scanNum 2 l10 with
  | none => none
  | some (se, l11) =>
  match
    (match l11.dropWhile rsSpace with
     | '+' :: r => some (false, r)
     | '-' :: r => some (true, r)
     | _ => none) with
  | none => none
  | some (neg, l12) =>
  match scanNum 2 l12 with
  | none => none
  | some (oh, l13) =>
  match scanNum 2 (if l13.headD ' ' = ':' then l13.drop 1 else l13) with
  | none => none
  | some (om, l14) =>
  if l14 = [] ∧ 1 ≤ mo ∧ mo ≤ 12 ∧ 1 ≤ d ∧ d ≤ daysInMonth y mo ∧
      h ≤ 23 ∧ mi ≤ 59 ∧ se ≤ 60 ∧ oh ≤ 23 ∧ om ≤ 59 then
    some ⟨y, mo, d, h, mi, se, neg, oh, om⟩
  else none

/-- URL components as exposed by the `url` crate: `scheme()` and `path()`
are total on a parsed URL, `host_str()`, `port()` and `query()` are optional. -/
structure UrlParts where
  scheme : List Char
  host : Option (List Char)
  port : Option Nat
  path : List Char
  query : Option (List Char)
  deriving DecidableEq, Repr

/-- ASCII letter. -/
def isAsciiAlpha (c : Char) : Bool := ('a' ≤ c && c ≤ 'z') || ('A' ≤ c && c ≤ 'Z')

/-- Scheme continuation characters. -/
def isSchemeChar (c : Char) : Bool := isAsciiAlpha c || asciiDigit c || c == '+' || c == '-' || c == '.'

/-- ASCII lowercase. -/
def lowerAscii (c : Char) : Char := if 'A' ≤ c && c ≤ 'Z' then Char.ofNat (c.toNat + 32) else c

/-- Default ports of the special schemes, per the WHATWG URL standard. -/
def defaultPort (scheme : List Char) : Option Nat :=
  if scheme = strL "http" || scheme = strL "ws" then some 80
  else if scheme = strL "https" || scheme = strL "wss" then some 443
  else if scheme = strL "ftp" then some 21
  else none

/-- Special schemes of the WHATWG URL standard. -/
def isSpecialScheme (scheme : List Char) : Bool :=
  scheme = strL "http" || scheme = strL "https" || scheme = strL "ws" ||
  scheme = strL "wss" || scheme = strL "ftp" || scheme = strL "file"

/-- `url::Url::parse` (the WHATWG URL parser), modelled from the crate's
documented behaviour, simplified: a URL must start with `scheme:` (a relative
reference is a parse error, `RelativeUrlWithoutBase`); `scheme://` introduces
an authority `host[:port]` terminated by `/`, `?` or `#`; special schemes
require a non-empty host and get path `/` when it is empty; the port is
omitted when it equals the scheme's default; the query is the part between
`?` and `#`; scheme and host are ASCII-lowercased.  Percent-encoding, IDNA
and path normalisation are not modelled; no claim depends on them. -/
def urlParse (l : List Char) : Option UrlParts :=
  match l with
  | [] => none
  | c :: _ =>
    if !isAsciiAlpha c then none
    else
      let schemeRaw := l.takeWhile isSchemeChar
      let rest := l.drop schemeRaw.length
      let scheme := schemeRaw.map lowerAscii
      match rest with
      | ':' :: r =>
        if r.take 2 = ['/', '/'] then
          let r2 := r.drop 2
          let auth := r2.takeWhile (fun c => !(c == '/' || c == '?' || c == '#'))
          let after := r2.drop auth.length
          let hostRaw := auth.takeWhile (fun c => !(c == ':'))
          let portPart := auth.drop (hostRaw.length + 1)
          let host := hostRaw.map lowerAscii
          if isSpecialScheme scheme && host = [] then none
          else
            let portOpt : Option (Option Nat) :=
              if hostRaw.length = auth.length then some none
              else if portPart = [] then some none
              else
                match digitsToNat portPart with
                | some p => if p ≤ 65535 then some (some p) else none
                | none => none
            match portOpt with
            | none => none
            | some port =>
              let port := if port = defaultPort scheme then none else port
              let pathRaw := after.takeWhile (fun c => !(c == '?' || c == '#'))
              let path := if pathRaw = [] ∧ isSpecialScheme scheme then ['/'] else pathRaw
              let afterPath := after.drop pathRaw.length
              let query :=
                match afterPath with
                | '?' :: q => some (q.takeWhile (fun c => !(c == '#')))
                | _ => none
              some ⟨scheme, some (if host = [] then [] else host), port, path, query⟩
        else
          let path := r.takeWhile (fun c => !(c == '?' || c == '#'))
          let afterPath := r.drop path.length
          let query :=
            match afterPath with
            | '?' :: q => some (q.takeWhile (fun c => !(c == '#')))
            | _ => none
          some ⟨scheme, none, none, path, query⟩
      | _ => none

/-!
## The record and `parse_line`
-/

/-- `LogRow` (src/parser.rs). -/
structure LogRow where
  remote_addr : List Char
  identd : Option (List Char)
  user_or_session : Option (List Char)
  ts : ChronoTs
  method : List Char
  url : List Char
  scheme : Option (List Char)
  host : Option (List Char)
  port : Option Int
  path : Option (List Char)
  query : Option (List Char)
  http_version : List Char
  status : Int
  bytes : Option Int
  country : Option (List Char)
  user_agent : Option (List Char)
  raw : List Char
  deriving DecidableEq, Repr

/-- The five URL-derived fields of a record, as bound by the
`match Url::parse(&url_str)` in `parse_line`: all five absent on failure,
`scheme` and `path` always present on success. -/
structure UrlFields where
  scheme : Option (List Char)
  host : Option (List Char)
  port : Option Int
  path : Option (List Char)
  query : Option (List Char)
  deriving DecidableEq, Repr

/-- The `match Url::parse(&url_str)` arm of `parse_line` (`u.port()` is a
`u16`, cast to `i32`). -/
def urlFields (u : Option UrlParts) : UrlFields :=
  match u with
  | some u => ⟨some u.scheme, u.host, u.port.map (fun p => (p : Int)), some u.path, u.query⟩
  | none => ⟨none, none, none, none, none⟩

/-- The bytes field conversion of `parse_line`: literal `-` is absent,
anything else must parse as an `i64`. -/
def bytesField (b : List Char) : Option (Option Int) :=
  if b = ['-'] then some none else (parseI64 b).map some

/-- The inline country/user-agent conversion blocks of `parse_line`: trim,
empty maps to absent. -/
def none_if_empty (s : List Char) : Option (List Char) :=
  let c := rsTrim s
  if c.isEmpty then none else some c

/-- Record construction at the end of `parse_line`, for a line whose regex
and numeric/timestamp conversions have all succeeded. -/
def mkRow (line : List Char) (caps : Caps) (ts : ChronoTs) (status : Int)
    (bytes : Option Int) : LogRow :=
  let g := capGet caps
  let uf := urlFields (urlParse (g 6))
  { remote_addr := g 1
    identd := none_if_dash (g 2)
    user_or_session := none_if_dash (g 3)
    ts := ts
    method := g 5
    url := g 6
    scheme := uf.scheme
    host := uf.host
    port := uf.port
    path := uf.path
    query := uf.query
    http_version := g 7
    status := status
    bytes := bytes
    country := none_if_empty (g 10)
    user_agent := none_if_empty (g 11)
    raw := line }

/-- The per-field stage of `parse_line`, after the regex has produced
captures: the chain of fallible conversions (`?` in the source). -/
def parseFields (line : List Char) (caps : Caps) : Option LogRow :=
  (parse_ts (capGet caps 4)).bind fun ts =>
  (parseI32 (capGet caps 8)).bind fun status =>
  (bytesField (capGet caps 9)).bind fun bytes =>
  some (mkRow line caps ts status bytes)

/-- `parse_line` (src/parser.rs): regex match, then the per-field
conversions; any fallible step's failure (`?`) fails the whole line.  URL
decomposition is infallible at line level: its failure yields five absent
fields. -/
def parse_line (line : List Char) : Option LogRow :=
  (reCaptures line).bind (parseFields line)

/-!
## The batch ingestor (src/db.rs `insert_rows`, src/main.rs `Import` arm)

`insert_rows` collects the rows, opens a bulk appender (fallible, `?`),
calls `append_row` once per row in order, counts successes in `ok` and
failures in `bad`, prints `Row {idx+1} failed` for each failure, discards
the result of the final `appender.flush()`, and returns `Ok((ok, bad))`.
The sink's behaviour (appender creation, each append's outcome, the flush
outcome) is external state, modelled by `SinkModel`.
-/

/-- Outcomes supplied by the DuckDB sink during one run. -/
structure SinkModel where
  /-- `conn.appender("requests")` succeeds. -/
  appenderOk : Bool
  /-- Whether `append_row` succeeds for the row at (0-based) index `idx`. -/
  appendOk : Nat → LogRow → Bool
  /-- Result of the final `appender.flush()`. -/
  flushOk : Bool

/-- Observable outcome of `insert_rows`: the returned counters plus the
sequences of sink interactions and diagnostics. -/
structure InsertResult where
  /-- `ok` counter returned to the caller. -/
  ok : Nat
  /-- `bad` counter returned to the caller. -/
  bad : Nat
  /-- Rows passed to `append_row`, in call order (all rows). -/
  attempted : List LogRow
  /-- Rows whose `append_row` call succeeded, in call order. -/
  appended : List LogRow
  /-- The 1-based indices printed by `eprintln!("Row {} failed", idx + 1)`. -/
  failDiags : List Nat
  /-- The discarded result of `appender.flush()`. -/
  flushResult : Bool
  deriving DecidableEq, Repr

/-- The `for (idx, r) in rows_vec.iter().enumerate()` loop of `insert_rows`.
The per-10000-row progress `println!` is observability only and is not
modelled. -/
def appendLoop (m : SinkModel) : Nat → List LogRow → Nat × Nat × List LogRow × List LogRow × List Nat
  | _, [] => (0, 0, [], [], [])
  | idx, r :: rest =>
    let (ok, bad, att, app, diags) := appendLoop m (idx + 1) rest
    if m.appendOk idx r then (ok + 1, bad, r :: att, r :: app, diags)
    else (ok, bad + 1, r :: att, app, (idx + 1) :: diags)

/-- `insert_rows` (src/db.rs): `none` exactly when opening the appender
fails (the only `?` between entry and return); otherwise the loop runs over
every row and `(ok, bad)` is returned after the discarded flush. -/
def insert_rows (m : SinkModel) (rows : List LogRow) : Option InsertResult :=
  if m.appenderOk then
    let (ok, bad, att, app, diags) := appendLoop m 0 rows
    some ⟨ok, bad, att, app, diags, m.flushOk⟩
  else none

/-- The `Import` arm of `main` (src/main.rs): lines are parsed and the
failures are silently dropped by `filter_map` (`Err(_) => None`) before the
rows reach `insert_rows`. -/
def importRows (lines : List (List Char)) : List LogRow :=
  lines.filterMap parse_line

/-- End-to-end ingestion: the `Import` arm feeding `insert_rows`. -/
def importRun (m : SinkModel) (lines : List (List Char)) : Option InsertResult :=
  insert_rows m (importRows lines)

/-!
## Concrete inputs used by witnesses and counterexamples
-/

/-- The spec's worked example line (§8). -/
def exLine : List Char :=
  strL "203.0.113.5 - joe [15/Feb/2026:00:00:04 +0000] \"GET http://example.com/a?x=1 HTTP/1.1\" 200 512 \"US\" \"Mozilla/5.0\""

/-- A line that fails the grammar. -/
def badLine : List Char := strL "not a log line"

/-- A well-formed line whose bytes field is `-512`: neither the literal `-`
nor a plain digit string. -/
def bytesNegLine : List Char :=
  strL "203.0.113.5 - joe [15/Feb/2026:00:00:04 +0000] \"GET http://e/ HTTP/1.1\" 200 -512 \"US\" \"UA\""

/-- A well-formed line with a relative request target (URL decomposition
fails) and a `-` bytes field. -/
def relUrlLine : List Char :=
  strL "203.0.113.5 - joe [15/Feb/2026:00:00:04 +0000] \"GET /a/b HTTP/1.1\" 200 - \"\" \"UA\""

/-- A sink in which everything succeeds. -/
def mAll : SinkModel := ⟨true, fun _ _ => true, true⟩

/-- A sink in which the append of the row at index 1 fails. -/
def mFailSecond : SinkModel := ⟨true, fun i _ => !(i == 1), true⟩

/-- Input for the C1 counterexample: one good line, one malformed line. -/
def c1Lines : List (List Char) := [exLine, badLine]

/-!
## Declarative matching relation for the engine

`MRe r s s' caps`: regex `r` matches a prefix of `s`, leaving suffix `s'`
and producing captures `caps`.  The engine is proved sound and complete for
it; this is what lets claims about lines that do or do not match the grammar
be settled without running the backtracking search symbolically.
-/

/-- Declarative semantics of `RE` over a prefix of the input. -/
inductive MRe : RE → List Char → List Char → Caps → Prop where
  | eps : MRe .eps s s []
  | lit : MRe (.lit c) (c :: s) s []
  | plus (t : List Char) (hne : t ≠ []) (hall : ∀ a ∈ t, p a = true) :
      MRe (.plus p) (t ++ s) s []
  | star (t : List Char) (hall : ∀ a ∈ t, p a = true) :
      MRe (.star p) (t ++ s) s []
  | rep (t : List Char) (hlen : t.length = n) (hall : ∀ a ∈ t, p a = true) :
      MRe (.rep p n) (t ++ s) s []
  | grp (h : MRe r s s' c) :
      MRe (.grp i r) s s' ((i, s.take (s.length - s'.length)) :: c)
  | cat (ha : MRe a s s₁ c₁) (hb : MRe b s₁ s₂ c₂) :
      MRe (.cat a b) s s₂ (c₂ ++ c₁)

/-- The family of lines used to settle C3: the spec's canonical fields with
the status slot replaced by an arbitrary string. -/
def statusLineA : List Char :=
  strL "203.0.113.5 - joe [15/Feb/2026:00:00:04 +0000] \"GET http://e/ HTTP/1.1\" "

/-- Suffix of the C3 line family after the status slot. -/
def statusLineB : List Char := strL " 512 \"US\" \"UA\""

/-- A log line whose status field is `s` and whose other ten fields are the
spec's canonical values. -/
def statusLine (s : List Char) : List Char := statusLineA ++ s ++ statusLineB

/-- The 24-piece decomposition of a line under the log grammar, together
with the capture list and the per-piece class constraints.  This is the
declarative reading of `logPattern`. -/
def LineShape (s s₂ : List Char) (caps : Caps) : Prop :=
  ∃ g1 g2 g3 g4 g5 g6 g7 g8 g9 g10 g11 w1 w2 w3 w4 w5 w6 w7 w8 w9 w10 w11 : List Char,
    s = g1 ++ (w1 ++ (g2 ++ (w2 ++ (g3 ++ (w3 ++ ('[' :: (g4 ++ (']' :: (w4 ++
      ('"' :: (g5 ++ (w5 ++ (g6 ++ (w6 ++ (g7 ++ ('"' :: (w7 ++ (g8 ++ (w8 ++
      (g9 ++ (w9 ++ ('"' :: (g10 ++ ('"' :: (w10 ++ ('"' :: (g11 ++ ('"' ::
      (w11 ++ s₂))))))))))))))))))))))))))))) ∧
    caps = [(11, g11), (10, g10), (9, g9), (8, g8), (7, g7), (6, g6), (5, g5),
            (4, g4), (3, g3), (2, g2), (1, g1)] ∧
    (g1 ≠ [] ∧ ∀ a ∈ g1, pNS a = true) ∧
    (g2 ≠ [] ∧ ∀ a ∈ g2, pNS a = true) ∧
    (g3 ≠ [] ∧ ∀ a ∈ g3, pNS a = true) ∧
    (g4 ≠ [] ∧ ∀ a ∈ g4, pNB a = true) ∧
    (g5 ≠ [] ∧ ∀ a ∈ g5, pNS a = true) ∧
    (g6 ≠ [] ∧ ∀ a ∈ g6, pNS a = true) ∧
    (g7 ≠ [] ∧ ∀ a ∈ g7, pNQ a = true) ∧
    (g8.length = 3 ∧ ∀ a ∈ g8, asciiDigit a = true) ∧
    (g9 ≠ [] ∧ ∀ a ∈ g9, pNS a = true) ∧
    (∀ a ∈ g10, pNQ a = true) ∧
    (∀ a ∈ g11, pNQ a = true) ∧
    (w1 ≠ [] ∧ ∀ a ∈ w1, rsSpace a = true) ∧
    (w2 ≠ [] ∧ ∀ a ∈ w2, rsSpace a = true) ∧
    (w3 ≠ [] ∧ ∀ a ∈ w3, rsSpace a = true) ∧
    (w4 ≠ [] ∧ ∀ a ∈ w4, rsSpace a = true) ∧
    (w5 ≠ [] ∧ ∀ a ∈ w5, rsSpace a = true) ∧
    (w6 ≠ [] ∧ ∀ a ∈ w6, rsSpace a = true) ∧
    (w7 ≠ [] ∧ ∀ a ∈ w7, rsSpace a = true) ∧
    (w8 ≠ [] ∧ ∀ a ∈ w8, rsSpace a = true) ∧
    (w9 ≠ [] ∧ ∀ a ∈ w9, rsSpace a = true) ∧
    (w10 ≠ [] ∧ ∀ a ∈ w10, rsSpace a = true) ∧
    (∀ a ∈ w11, rsSpace a = true)

/-- Pieces 20–29 of the log pattern (from group 9 to the end). -/
def tailC : List RE := [
  .grp 9 (.plus pNS), .plus rsSpace,
  .lit '"', .grp 10 (.star pNQ), .lit '"', .plus rsSpace,
  .lit '"', .grp 11 (.star pNQ), .lit '"', .star rsSpace]

/-- Pieces 10–29 of the log pattern (from the quote before group 5 to the
end). -/
def tailB : List RE := [
  .lit '"', .grp 5 (.plus pNS), .plus rsSpace,
  .grp 6 (.plus pNS), .plus rsSpace,
  .grp 7 (.plus pNQ), .lit '"', .plus rsSpace,
  .grp 8 (.rep asciiDigit 3), .plus rsSpace,
  .grp 9 (.plus pNS), .plus rsSpace,
  .lit '"', .grp 10 (.star pNQ), .lit '"', .plus rsSpace,
  .lit '"', .grp 11 (.star pNQ), .lit '"', .star rsSpace]

/-- Decomposition of a match of `cats tailC`: the last six pieces' slices
with their class constraints and captures. -/
def ShapeC (s s₂ : List Char) (caps : Caps) : Prop :=
  ∃ g9 g10 g11 w9 w10 w11 : List Char,
    s = g9 ++ (w9 ++ ('"' :: (g10 ++ ('"' :: (w10 ++ ('"' :: (g11 ++ ('"' ::
      (w11 ++ s₂))))))))) ∧
    caps = [(11, g11), (10, g10), (9, g9)] ∧
    (g9 ≠ [] ∧ ∀ a ∈ g9, pNS a = true) ∧
    (∀ a ∈ g10, pNQ a = true) ∧
    (∀ a ∈ g11, pNQ a = true) ∧
    (w9 ≠ [] ∧ ∀ a ∈ w9, rsSpace a = true) ∧
    (w10 ≠ [] ∧ ∀ a ∈ w10, rsSpace a = true) ∧
    (∀ a ∈ w11, rsSpace a = true)

/-- Decomposition of a match of `cats tailB`: the slices of groups 5–11 and
the surrounding whitespace and quotes, with constraints and captures. -/
def ShapeB (s s₂ : List Char) (caps : Caps) : Prop :=
  ∃ g5 g6 g7 g8 g9 g10 g11 w5 w6 w7 w8 w9 w10 w11 : List Char,
    s = '"' :: (g5 ++ (w5 ++ (g6 ++ (w6 ++ (g7 ++ ('"' :: (w7 ++ (g8 ++ (w8 ++
      (g9 ++ (w9 ++ ('"' :: (g10 ++ ('"' :: (w10 ++ ('"' :: (g11 ++ ('"' ::
      (w11 ++ s₂))))))))))))))))))) ∧
    caps = [(11, g11), (10, g10), (9, g9), (8, g8), (7, g7), (6, g6), (5, g5)] ∧
    (g5 ≠ [] ∧ ∀ a ∈ g5, pNS a = true) ∧
    (g6 ≠ [] ∧ ∀ a ∈ g6, pNS a = true) ∧
    (g7 ≠ [] ∧ ∀ a ∈ g7, pNQ a = true) ∧
    (g8.length = 3 ∧ ∀ a ∈ g8, asciiDigit a = true) ∧
    (g9 ≠ [] ∧ ∀ a ∈ g9, pNS a = true) ∧
    (∀ a ∈ g10, pNQ a = true) ∧
    (∀ a ∈ g11, pNQ a = true) ∧
    (w5 ≠ [] ∧ ∀ a ∈ w5, rsSpace a = true) ∧
    (w6 ≠ [] ∧ ∀ a ∈ w6, rsSpace a = true) ∧
    (w7 ≠ [] ∧ ∀ a ∈ w7, rsSpace a = true) ∧
    (w8 ≠ [] ∧ ∀ a ∈ w8, rsSpace a = true) ∧
    (w9 ≠ [] ∧ ∀ a ∈ w9, rsSpace a = true) ∧
    (w10 ≠ [] ∧ ∀ a ∈ w10, rsSpace a = true) ∧
    (∀ a ∈ w11, rsSpace a = true)

/-- An arbitrary record, used only as the default of `Option.getD` in closed
witness statements (the surrounding equalities ensure it is never the value
actually produced). -/
def defaultRow : LogRow :=
  ⟨[], none, none, ⟨0, 1, 1, 0, 0, 0, false, 0, 0⟩, [], [], none, none, none, none,
   none, [], 0, none, none, none, []⟩

/-- An arbitrary `InsertResult`, used only as a `getD` default in closed
witness statements. -/
def defaultInsertResult : InsertResult := ⟨0, 0, [], [], [], true⟩

/-- Rows for the C8 witness: two successfully parsed records. -/
def c8Rows : List LogRow := importRows [exLine, relUrlLine]

/-!
## Structural lemmas about `parse_line`
-/

/-- Inversion of a successful `parse_line`: the regex matched and every
fallible field conversion succeeded, and the row is the one built from the
captures. -/
theorem parse_line_inv {line : List Char} {row : LogRow}
    (h : parse_line line = some row) :
    ∃ caps ts status bytes,
      reCaptures line = some caps ∧
      parse_ts (capGet caps 4) = some ts ∧
      parseI32 (capGet caps 8) = some status ∧
      bytesField (capGet caps 9) = some bytes ∧
      row = mkRow line caps ts status bytes := by
  rw [parse_line] at h
  rcases Option.bind_eq_some.mp h with ⟨caps, hcaps, h2⟩
  rw [parseFields] at h2
  rcases Option.bind_eq_some.mp h2 with ⟨ts, hts, h3⟩
  rcases Option.bind_eq_some.mp h3 with ⟨status, hst, h4⟩
  rcases Option.bind_eq_some.mp h4 with ⟨bytes, hby, h5⟩
  exact ⟨caps, ts, status, bytes, hcaps, hts, hst, hby, (Option.some.inj h5).symm⟩

/-- A successful capture plus successful field conversions force
`parse_line` to succeed (with the canonical row). -/
theorem parse_line_eq_of (line : List Char) (caps : Caps) (ts : ChronoTs)
    (status : Int) (bytes : Option Int)
    (hc : reCaptures line = some caps)
    (hts : parse_ts (capGet caps 4) = some ts)
    (hst : parseI32 (capGet caps 8) = some status)
    (hby : bytesField (capGet caps 9) = some bytes) :
    parse_line line = some (mkRow line caps ts status bytes) := by
  rw [parse_line, hc, Option.some_bind, parseFields, hts, Option.some_bind, hst,
    Option.some_bind, hby, Option.some_bind]

/-- `none_if_dash` is absent exactly on a trimmed dash, else the trim. -/
theorem none_if_dash_spec (s : List Char) :
    (none_if_dash s = none ↔ rsTrim s = ['-']) ∧
    (∀ x, none_if_dash s = some x → x = rsTrim s) := by
  unfold none_if_dash
  by_cases hd : rsTrim s = ['-'] <;> simp [hd]

/-- `none_if_empty` is absent exactly on a blank field, else the trim. -/
theorem none_if_empty_spec (s : List Char) :
    (none_if_empty s = none ↔ rsTrim s = []) ∧
    (∀ x, none_if_empty s = some x → x = rsTrim s) := by
  unfold none_if_empty
  by_cases hd : rsTrim s = [] <;> simp [hd, List.isEmpty_iff]

/-!
## Claim theorems: the parser (C4-C7, C10)
-/

/-- The `bytes` field of the constructed row. -/
theorem mkRow_bytes (line : List Char) (caps : Caps) (ts : ChronoTs)
    (status : Int) (b : Option Int) :
    (mkRow line caps ts status b).bytes = b := rfl

/-- C7: for every well-formed line matching the grammar, the record returned
by `parse_line` has its `raw` field equal, character for character, to the
exact input line. -/
theorem c7_raw_preserved (line : List Char) (row : LogRow)
    (h : parse_line line = some row) : row.raw = line := by
  obtain ⟨caps, ts, st, b, -, -, -, -, hrow⟩ := parse_line_inv h
  rw [hrow]; rfl

/-- C7 witness: the spec's worked example line, evaluated concretely. -/
theorem c7_raw_witness : ((parse_line exLine).getD defaultRow).raw = exLine :=
  c7_raw_preserved exLine _ (by decide)

/-- C6: in every accepted record, `identd` and `user_or_session` are absent
exactly when the corresponding source field (capture 2 resp. 3) trims to the
literal `-`, otherwise they equal the trimmed source text; `country` and
`user_agent` are absent exactly when the source field (capture 10 resp. 11)
is empty after trimming, otherwise they equal the trimmed source text. -/
theorem c6_optional_fields (line : List Char) (caps : Caps) (row : LogRow)
    (hc : reCaptures line = some caps) (h : parse_line line = some row) :
    ((row.identd = none ↔ rsTrim (capGet caps 2) = ['-']) ∧
      (∀ x, row.identd = some x → x = rsTrim (capGet caps 2))) ∧
    ((row.user_or_session = none ↔ rsTrim (capGet caps 3) = ['-']) ∧
      (∀ x, row.user_or_session = some x → x = rsTrim (capGet caps 3))) ∧
    ((row.country = none ↔ rsTrim (capGet caps 10) = []) ∧
      (∀ x, row.country = some x → x = rsTrim (capGet caps 10))) ∧
    ((row.user_agent = none ↔ rsTrim (capGet caps 11) = []) ∧
      (∀ x, row.user_agent = some x → x = rsTrim (capGet caps 11))) := by
  obtain ⟨caps', ts, st, b, hc', -, -, -, hrow⟩ := parse_line_inv h
  rw [hc'] at hc
  injection hc with hc
  subst hc
  subst hrow
  exact ⟨none_if_dash_spec _, none_if_dash_spec _, none_if_empty_spec _,
    none_if_empty_spec _⟩

/-- C6 witness: on the worked example, `identd` (field `-`) is absent and
`user_or_session` equals `joe`. -/
theorem c6_optional_fields_witness :
    ((parse_line exLine).getD defaultRow).identd = none ∧
    ((parse_line exLine).getD defaultRow).user_or_session = some (strL "joe") := by
  have h := c6_optional_fields exLine ((reCaptures exLine).getD [])
    ((parse_line exLine).getD defaultRow) (by decide) (by decide)
  refine ⟨h.1.1.mpr (by decide), ?_⟩
  have h2 := h.2.1.2
  cases hu : ((parse_line exLine).getD defaultRow).user_or_session with
  | none => exact absurd (h.2.1.1.mp hu) (by decide)
  | some x => rw [h2 x hu]; decide

/-- C4 counterexample: the claim says a bytes field that is neither the
literal `-` nor digits fails the whole line, but the source parses the field
with Rust's signed `i64` parser: the well-formed line with bytes field
`-512` is accepted and yields `bytes = -512`. -/
theorem c4_counterexample :
    (reCaptures bytesNegLine).map (fun c => capGet c 9) = some (strL "-512") ∧
    (parse_line bytesNegLine).map (fun r => r.bytes) = some (some (-512)) := by
  constructor <;> decide

/-- C4 amended: for every line matching the grammar, a bytes field equal to
the literal `-` yields `bytes` absent; a bytes field accepted by Rust's
signed 64-bit parser (optional sign, ASCII digits, within `i64` range)
yields `bytes` equal to that value; any bytes field that is not `-` and is
rejected by that parser fails the whole line. -/
theorem c4_bytes_amended (line : List Char) (caps : Caps)
    (hc : reCaptures line = some caps) :
    (∀ row, parse_line line = some row →
      (capGet caps 9 = ['-'] → row.bytes = none) ∧
      (∀ v, parseI64 (capGet caps 9) = some v → ¬ capGet caps 9 = ['-'] →
        row.bytes = some v)) ∧
    (¬ capGet caps 9 = ['-'] → parseI64 (capGet caps 9) = none →
      parse_line line = none) := by
  constructor
  · intro row h
    obtain ⟨caps', ts, st, b, hc', -, -, hby, hrow⟩ := parse_line_inv h
    have hcc : caps' = caps := Option.some.inj (hc'.symm.trans hc)
    rw [hcc] at hby
    constructor
    · intro hdash
      rw [bytesField, if_pos hdash] at hby
      rw [hrow, hcc, mkRow_bytes]
      exact (Option.some.inj hby).symm
    · intro v hv hnd
      rw [bytesField, if_neg hnd, hv] at hby
      rw [hrow, hcc, mkRow_bytes]
      exact (Option.some.inj hby).symm
  · intro hnd hni
    rw [parse_line, hc, Option.some_bind, parseFields]
    cases hts : parse_ts (capGet caps 4) with
    | none => rfl
    | some ts =>
      rw [Option.some_bind]
      cases hst : parseI32 (capGet caps 8) with
      | none => rfl
      | some st =>
        rw [Option.some_bind, bytesField, if_neg hnd, hni]
        rfl

/-- C4 witness: a `-` bytes field yields an absent `bytes` on the
`relUrlLine` example. -/
theorem c4_bytes_witness :
    ((parse_line relUrlLine).getD defaultRow).bytes = none :=
  ((c4_bytes_amended relUrlLine ((reCaptures relUrlLine).getD []) (by decide)).1
    ((parse_line relUrlLine).getD defaultRow) (by decide)).1 (by decide)

/-- C5: URL decomposition failure is degraded gracefully: if a record was
produced and its `url` does not decompose, then `scheme`, `host`, `port`,
`path` and `query` are all absent; and decomposition failure is never a line
failure: whenever the grammar matched and the timestamp, status and bytes
conversions succeed, `parse_line` succeeds, irrespective of the URL. -/
theorem c5_url_failure_graceful :
    (∀ line row, parse_line line = some row → urlParse row.url = none →
      row.scheme = none ∧ row.host = none ∧ row.port = none ∧
      row.path = none ∧ row.query = none) ∧
    (∀ line caps ts status bytes, reCaptures line = some caps →
      parse_ts (capGet caps 4) = some ts →
      parseI32 (capGet caps 8) = some status →
      bytesField (capGet caps 9) = some bytes →
      (parse_line line).isSome = true) := by
  constructor
  · intro line row h hu
    obtain ⟨caps, ts, st, b, -, -, -, -, hrow⟩ := parse_line_inv h
    have hurl : row.url = capGet caps 6 := by rw [hrow]; rfl
    rw [hurl] at hu
    subst hrow
    simp [mkRow, urlFields, hu]
  · intro line caps ts status bytes hc hts hst hby
    rw [parse_line_eq_of line caps ts status bytes hc hts hst hby]
    rfl

/-- C5 witness: the relative-URL line fails decomposition yet is accepted,
with an absent scheme. -/
theorem c5_url_witness :
    urlParse ((parse_line relUrlLine).getD defaultRow).url = none ∧
    ((parse_line relUrlLine).getD defaultRow).scheme = none := by
  refine ⟨by decide, ?_⟩
  exact (c5_url_failure_graceful.1 relUrlLine _ (by decide) (by decide)).1

/-- C10: in every record produced by `parse_line`, either the URL
decomposition succeeded, in which case `scheme` and `path` are both present
(and `host`, `port`, `query` carry the decomposition's optional results), or
it failed, in which case all five are absent. -/
theorem c10_scheme_path_invariant (line : List Char) (row : LogRow)
    (h : parse_line line = some row) :
    (∃ u, urlParse row.url = some u ∧ row.scheme = some u.scheme ∧
      row.path = some u.path ∧ row.host = u.host ∧
      row.port = u.port.map (fun p => (p : Int)) ∧ row.query = u.query) ∨
    (urlParse row.url = none ∧ row.scheme = none ∧ row.host = none ∧
      row.port = none ∧ row.path = none ∧ row.query = none) := by
  obtain ⟨caps, ts, st, b, -, -, -, -, hrow⟩ := parse_line_inv h
  have hurl : row.url = capGet caps 6 := by rw [hrow]; rfl
  rw [hurl]
  subst hrow
  cases hu : urlParse (capGet caps 6) with
  | none =>
    right
    simp [mkRow, urlFields, hu]
  | some u =>
    left
    refine ⟨u, rfl, ?_⟩
    simp [mkRow, urlFields, hu]

/-- C10 witness: the invariant instantiated at the worked example line
(whose URL decomposes). -/
theorem c10_scheme_path_witness :
    (∃ u, urlParse ((parse_line exLine).getD defaultRow).url = some u ∧
      ((parse_line exLine).getD defaultRow).scheme = some u.scheme ∧
      ((parse_line exLine).getD defaultRow).path = some u.path ∧
      ((parse_line exLine).getD defaultRow).host = u.host ∧
      ((parse_line exLine).getD defaultRow).port = u.port.map (fun p => (p : Int)) ∧
      ((parse_line exLine).getD defaultRow).query = u.query) ∨
    (urlParse ((parse_line exLine).getD defaultRow).url = none ∧
      ((parse_line exLine).getD defaultRow).scheme = none ∧
      ((parse_line exLine).getD defaultRow).host = none ∧
      ((parse_line exLine).getD defaultRow).port = none ∧
      ((parse_line exLine).getD defaultRow).path = none ∧
      ((parse_line exLine).getD defaultRow).query = none) :=
  c10_scheme_path_invariant exLine _ (by decide)

/-!
## Claim theorems: the batch ingestor (C1, C2, C8, C9)
-/

/-- The append loop computed in closed form: counters, forwarded rows,
appended rows and failure diagnostics, via `enumFrom`. -/
theorem appendLoop_spec (m : SinkModel) :
    ∀ (rows : List LogRow) (i : Nat),
      appendLoop m i rows =
        (((List.enumFrom i rows).filter (fun p => m.appendOk p.1 p.2)).length,
         ((List.enumFrom i rows).filter (fun p => !m.appendOk p.1 p.2)).length,
         rows,
         ((List.enumFrom i rows).filter (fun p => m.appendOk p.1 p.2)).map (fun p => p.2),
         ((List.enumFrom i rows).filter (fun p => !m.appendOk p.1 p.2)).map (fun p => p.1 + 1)) := by
  intro rows
  induction rows with
  | nil => intro i; rfl
  | cons r rest ih =>
    intro i
    rw [appendLoop, ih (i + 1)]
    by_cases hb : m.appendOk i r = true
    · simp [List.enumFrom, List.filter, hb]
    · simp only [Bool.not_eq_true] at hb
      simp [List.enumFrom, List.filter, hb]

/-- The loop only reads `appendOk`; the other sink components do not affect
it. -/
theorem appendLoop_congr (m₁ m₂ : SinkModel) (h : m₁.appendOk = m₂.appendOk) :
    ∀ rows i, appendLoop m₁ i rows = appendLoop m₂ i rows := by
  intro rows
  induction rows with
  | nil => intro i; rfl
  | cons r rest ih => intro i; rw [appendLoop, appendLoop, ih (i + 1), h]

/-- Splitting a list by a predicate preserves total length. -/
theorem length_filter_add_not {α : Type} (p : α → Bool) :
    ∀ l : List α, (l.filter p).length + (l.filter (fun a => !p a)).length = l.length := by
  intro l
  induction l with
  | nil => rfl
  | cons a rest ih =>
    by_cases hp : p a = true
    · simp only [List.filter, hp, Bool.not_true, List.length_cons]
      omega
    · simp only [Bool.not_eq_true] at hp
      simp only [List.filter, hp, Bool.not_false, List.length_cons]
      omega

/-- C8: for every sequence of records handed to `insert_rows` (with a
working appender), a failing per-record append increments `bad` (never
`ok`), emits a diagnostic carrying the record's 1-based number, and the loop
continues: every record is attempted, `ok + bad` covers the whole sequence,
and previously appended records stay appended (no rollback); the run returns
with both counters. -/
theorem c8_append_failure_handling (m : SinkModel) (rows : List LogRow)
    (res : InsertResult) (h : insert_rows m rows = some res) :
    res.bad = ((rows.enum.filter (fun p => !m.appendOk p.1 p.2)).length) ∧
    res.failDiags = (rows.enum.filter (fun p => !m.appendOk p.1 p.2)).map (fun p => p.1 + 1) ∧
    res.ok = ((rows.enum.filter (fun p => m.appendOk p.1 p.2)).length) ∧
    res.ok + res.bad = rows.length ∧
    res.attempted = rows ∧
    res.appended = (rows.enum.filter (fun p => m.appendOk p.1 p.2)).map (fun p => p.2) := by
  rw [insert_rows] at h
  by_cases hA : m.appenderOk = true
  · rw [if_pos hA, appendLoop_spec] at h
    obtain rfl := (Option.some.inj h).symm
    refine ⟨rfl, rfl, rfl, ?_, rfl, rfl⟩
    show ((List.enumFrom 0 rows).filter (fun p => m.appendOk p.1 p.2)).length +
        ((List.enumFrom 0 rows).filter (fun p => !m.appendOk p.1 p.2)).length = rows.length
    rw [length_filter_add_not (fun p => m.appendOk p.1 p.2) (List.enumFrom 0 rows)]
    exact List.enumFrom_length
  · rw [if_neg hA] at h
    cases h

/-- C8 witness: two parsed records with the second append failing:
`ok = 1`, `bad = 1`, the diagnostic names record 2, and the first record
stays appended. -/
theorem c8_append_witness :
    ((insert_rows mFailSecond c8Rows).getD defaultInsertResult).bad = 1 ∧
    ((insert_rows mFailSecond c8Rows).getD defaultInsertResult).failDiags = [2] := by
  have h := c8_append_failure_handling mFailSecond c8Rows
    ((insert_rows mFailSecond c8Rows).getD defaultInsertResult) (by decide)
  exact ⟨h.1.trans (by decide), h.2.1.trans (by decide)⟩

/-- C9: the end-of-run flush result is discarded: `insert_rows` returns the
same `(ok, bad)` whatever `flush` returns, and (with a working appender) it
returns successfully even when the flush fails. -/
theorem c9_flush_discarded (m : SinkModel) (rows : List LogRow) (b₁ b₂ : Bool)
    (hA : m.appenderOk = true) :
    ((insert_rows { m with flushOk := b₁ } rows).map (fun r => (r.ok, r.bad)) =
      (insert_rows { m with flushOk := b₂ } rows).map (fun r => (r.ok, r.bad))) ∧
    (insert_rows { m with flushOk := b₁ } rows).isSome = true := by
  have hcong := appendLoop_congr { m with flushOk := b₁ } { m with flushOk := b₂ } rfl rows 0
  rw [insert_rows, insert_rows]
  simp only [hA, if_pos]
  rw [hA] at hcong
  rw [hcong]
  exact ⟨rfl, rfl⟩

/-- C9 witness: the flush result flipped on a concrete run changes nothing
observable in the returned counters. -/
theorem c9_flush_witness :
    ((insert_rows { mAll with flushOk := false } c8Rows).map (fun r => (r.ok, r.bad)) =
      (insert_rows { mAll with flushOk := true } c8Rows).map (fun r => (r.ok, r.bad))) ∧
    (insert_rows { mAll with flushOk := false } c8Rows).isSome = true :=
  c9_flush_discarded mAll c8Rows false true rfl

/-- The appended rows are an order-preserving subsequence of the attempted
rows. -/
theorem appended_sublist (m : SinkModel) :
    ∀ (rows : List LogRow) (i : Nat),
      List.Sublist
        (((List.enumFrom i rows).filter (fun p => m.appendOk p.1 p.2)).map (fun p => p.2))
        rows := by
  intro rows
  induction rows with
  | nil => intro i; simp
  | cons r rest ih =>
    intro i
    by_cases hb : m.appendOk i r = true
    · simpa [List.enumFrom, List.filter, hb] using List.Sublist.cons₂ r (ih (i + 1))
    · simp only [Bool.not_eq_true] at hb
      simpa [List.enumFrom, List.filter, hb] using List.Sublist.cons r (ih (i + 1))

/-- C2: the records forwarded to the sink's bulk-append path by the `Import`
arm are exactly the successfully parsed records, in the order of their
source lines (`List.filterMap` preserves relative order by construction),
and the appended records form an order-preserving subsequence of them. -/
theorem c2_order_preserved (m : SinkModel) (lines : List (List Char))
    (res : InsertResult) (h : importRun m lines = some res) :
    res.attempted = lines.filterMap parse_line ∧
    List.Sublist res.appended res.attempted := by
  rw [importRun, insert_rows] at h
  by_cases hA : m.appenderOk = true
  · rw [if_pos hA, appendLoop_spec] at h
    obtain rfl := (Option.some.inj h).symm
    exact ⟨rfl, appended_sublist m (importRows lines) 0⟩
  · rw [if_neg hA] at h
    cases h

/-- C2 witness: a concrete two-line input (one malformed) forwards exactly
the one parsed record. -/
theorem c2_order_witness :
    ((importRun mAll c1Lines).getD defaultInsertResult).attempted =
      c1Lines.filterMap parse_line ∧
    List.Sublist ((importRun mAll c1Lines).getD defaultInsertResult).appended
      ((importRun mAll c1Lines).getD defaultInsertResult).attempted :=
  c2_order_preserved mAll c1Lines _ (by decide)

/-- Length of `filterMap` in terms of the failing inputs. -/
theorem length_filterMap_sub (f : List Char → Option LogRow) :
    ∀ lines : List (List Char),
      (lines.filterMap f).length =
        lines.length - (lines.filter (fun l => (f l).isNone)).length := by
  intro lines
  induction lines with
  | nil => rfl
  | cons l rest ih =>
    have hle : (rest.filter (fun l => (f l).isNone)).length ≤ rest.length :=
      List.length_filter_le _ _
    cases hf : f l with
    | none => simp [List.filterMap_cons, List.filter, hf, ih]
    | some r =>
      simp [List.filterMap_cons, List.filter, hf, ih]
      omega

/-- C1 counterexample: the claim asserts `accepted + rejected = N` with each
malformed line incrementing `rejected` and being reported; on input of
`N = 2` lines with `K = 1` malformed (all sink appends succeeding) the run
yields `ok = 1`, `bad = 0` and no failure diagnostics: the malformed line
increments nothing, is never reported, and `ok + bad = 1 ≠ 2 = N`. -/
theorem c1_counterexample :
    (importRun mAll c1Lines).map (fun r => (r.ok, r.bad, r.failDiags)) =
      some (1, 0, []) ∧
    ¬ (1 + 0 = c1Lines.length) := by
  exact ⟨by decide, by decide⟩

/-- C1 amended: ingesting `N` lines of which `K` are malformed (with a
working sink: appender opens and every append succeeds) yields
`accepted = N - K` and `rejected = 0`: malformed lines are silently dropped
by the `filter_map` in the `Import` arm, incrementing neither counter and
producing no diagnostic, and no bad line aborts the run (`rejected` only
ever counts sink-append failures). -/
theorem c1_amended (lines : List (List Char)) (m : SinkModel)
    (hA : m.appenderOk = true) (hok : ∀ i r, m.appendOk i r = true) :
    (importRun m lines).map (fun res => (res.ok, res.bad)) =
      some (lines.length - (lines.filter (fun l => (parse_line l).isNone)).length, 0) := by
  rw [importRun, insert_rows, if_pos hA, appendLoop_spec]
  have hfilter_all : ∀ (l : List (Nat × LogRow)),
      l.filter (fun p => m.appendOk p.1 p.2) = l ∧
      l.filter (fun p => !m.appendOk p.1 p.2) = [] := by
    intro l
    induction l with
    | nil => exact ⟨rfl, rfl⟩
    | cons p rest ih => simp [List.filter, hok p.1 p.2, ih.1, ih.2]
  rw [(hfilter_all _).1, (hfilter_all _).2]
  have hlen : (List.enumFrom 0 (importRows lines)).length =
      lines.length - (lines.filter (fun l => (parse_line l).isNone)).length := by
    rw [List.enumFrom_length, importRows, length_filterMap_sub]
  simp only [hlen]
  rfl

/-- C1 amended witness: the concrete two-line input (one malformed), all
appends succeeding. -/
theorem c1_amended_witness :
    (importRun mAll c1Lines).map (fun res => (res.ok, res.bad)) =
      some (c1Lines.length - (c1Lines.filter (fun l => (parse_line l).isNone)).length, 0) :=
  c1_amended c1Lines mAll rfl (fun _ _ => rfl)

/-!
## Engine soundness and completeness

The backtracking engine agrees with the declarative relation `MRe`: every
successful run corresponds to a valid decomposition (`matchRe_sound`), and if
any valid decomposition makes the continuation succeed, the engine does not
return `none` (`matchRe_complete`).  The quantifier search is exhaustive over
consumption counts, which is what makes completeness hold.
-/

/-- A successful `firstSome` comes from some candidate. -/
theorem firstSome_eq_some {α : Type} (f : Nat → Option α) :
    ∀ (l : List Nat) (res : α), firstSome f l = some res → ∃ i ∈ l, f i = some res := by
  intro l
  induction l with
  | nil => intro res h; cases h
  | cons i is ih =>
    intro res h
    rw [firstSome] at h
    cases hf : f i with
    | some r => rw [hf] at h; exact ⟨i, List.mem_cons_self i is, hf.trans h⟩
    | none =>
      rw [hf] at h
      obtain ⟨j, hj, hfj⟩ := ih res h
      exact ⟨j, List.mem_cons_of_mem i hj, hfj⟩

/-- A failed `firstSome` fails on every candidate. -/
theorem firstSome_eq_none {α : Type} (f : Nat → Option α) :
    ∀ l : List Nat, firstSome f l = none → ∀ i ∈ l, f i = none := by
  intro l
  induction l with
  | nil => intro _ i hi; cases hi
  | cons j is ih =>
    intro h i hi
    rw [firstSome] at h
    cases hf : f j with
    | some r => rw [hf] at h; cases h
    | none =>
      rw [hf] at h
      rcases List.mem_cons.mp hi with rfl | hmem
      · exact hf
      · exact ih h i hmem

/-- `runLen` never exceeds the input length. -/
theorem runLen_le_length (p : Char → Bool) : ∀ s : List Char, runLen p s ≤ s.length := by
  intro s
  induction s with
  | nil => exact Nat.le_refl 0
  | cons c cs ih =>
    rw [runLen]
    by_cases hc : p c = true
    · rw [if_pos hc]; exact Nat.succ_le_succ ih
    · rw [if_neg hc]; exact Nat.zero_le _

/-- Characters inside the maximal run satisfy the class. -/
theorem all_take_of_le_runLen (p : Char → Bool) :
    ∀ (s : List Char) (i : Nat), i ≤ runLen p s → ∀ a ∈ s.take i, p a = true := by
  intro s
  induction s with
  | nil => intro i _ a ha; simp at ha
  | cons c cs ih =>
    intro i hi a ha
    rw [runLen] at hi
    by_cases hc : p c = true
    · rw [if_pos hc] at hi
      cases i with
      | zero => simp at ha
      | succ j =>
        rw [List.take_succ_cons] at ha
        rcases List.mem_cons.mp ha with rfl | hmem
        · exact hc
        · exact ih j (Nat.le_of_succ_le_succ hi) a hmem
    · rw [if_neg hc] at hi
      obtain rfl := Nat.le_zero.mp hi
      simp at ha

/-- A class-respecting prefix is no longer than the maximal run. -/
theorem length_le_runLen_of_all (p : Char → Bool) :
    ∀ (t s : List Char), (∀ a ∈ t, p a = true) → t.length ≤ runLen p (t ++ s) := by
  intro t
  induction t with
  | nil => intro s _; exact Nat.zero_le _
  | cons c cs ih =>
    intro s hall
    rw [List.cons_append, runLen, if_pos (hall c (List.mem_cons_self c cs))]
    exact Nat.succ_le_succ (ih s (fun a ha => hall a (List.mem_cons_of_mem c ha)))

/-- A match consumes a prefix: the remainder is a suffix. -/
theorem MRe_split {r : RE} : ∀ {s s' : List Char} {c : Caps},
    MRe r s s' c → ∃ t, s = t ++ s' := by
  intro s s' c h
  induction h with
  | eps => exact ⟨[], rfl⟩
  | lit => exact ⟨[_], rfl⟩
  | plus t _ _ => exact ⟨t, rfl⟩
  | star t _ => exact ⟨t, rfl⟩
  | rep t _ _ => exact ⟨t, rfl⟩
  | grp _ ih => exact ih
  | cat _ _ iha ihb =>
    obtain ⟨t₁, rfl⟩ := iha
    obtain ⟨t₂, rfl⟩ := ihb
    exact ⟨t₁ ++ t₂, (List.append_assoc t₁ t₂ _).symm⟩

/-- Computing the consumed prefix from the lengths. -/
theorem take_sub_length (t s : List Char) :
    (t ++ s).take ((t ++ s).length - s.length) = t := by
  rw [List.length_append, Nat.add_sub_cancel]
  exact List.take_left t s

/-- Soundness of the engine: a successful run yields a valid decomposition
whose remainder and captures the continuation accepted. -/
theorem matchRe_sound (r : RE) :
    ∀ (s : List Char) (k : List Char → Caps → Option Caps) (caps res : Caps),
      matchRe r s k caps = some res →
      ∃ s' c, MRe r s s' c ∧ k s' (c ++ caps) = some res := by
  induction r with
  | eps =>
    intro s k caps res h
    exact ⟨s, [], MRe.eps, h⟩
  | lit ch =>
    intro s k caps res h
    cases s with
    | nil => cases h
    | cons d rest =>
      rw [matchRe] at h
      by_cases hd : d = ch
      · subst hd
        rw [if_pos rfl] at h
        exact ⟨rest, [], MRe.lit, h⟩
      · rw [if_neg hd] at h; cases h
  | plus p =>
    intro s k caps res h
    rw [matchRe] at h
    obtain ⟨i, hi, hki⟩ := firstSome_eq_some _ _ _ h
    rw [List.mem_reverse, List.mem_range'_1] at hi
    have hrun : i ≤ runLen p s := by omega
    have hst : s = s.take i ++ s.drop i := (List.take_append_drop i s).symm
    have hne : s.take i ≠ [] := by
      have : (s.take i).length = i := by
        rw [List.length_take]
        have := runLen_le_length p s
        omega
      intro hcon
      rw [hcon] at this
      simp at this
      omega
    refine ⟨s.drop i, [], ?_, hki⟩
    conv in s => rw [hst]
    exact MRe.plus (s.take i) hne (all_take_of_le_runLen p s i hrun)
  | star p =>
    intro s k caps res h
    rw [matchRe] at h
    obtain ⟨i, hi, hki⟩ := firstSome_eq_some _ _ _ h
    rw [List.mem_reverse, List.mem_range] at hi
    have hrun : i ≤ runLen p s := by omega
    have hst : s = s.take i ++ s.drop i := (List.take_append_drop i s).symm
    refine ⟨s.drop i, [], ?_, hki⟩
    conv in s => rw [hst]
    exact MRe.star (s.take i) (all_take_of_le_runLen p s i hrun)
  | rep p n =>
    intro s k caps res h
    rw [matchRe] at h
    by_cases hn : n ≤ runLen p s
    · rw [if_pos hn] at h
      have hst : s = s.take n ++ s.drop n := (List.take_append_drop n s).symm
      have hlen : (s.take n).length = n := by
        rw [List.length_take]
        have := runLen_le_length p s
        omega
      refine ⟨s.drop n, [], ?_, h⟩
      conv in s => rw [hst]
      exact MRe.rep (s.take n) hlen (all_take_of_le_runLen p s n hn)
    · rw [if_neg hn] at h; cases h
  | grp i r ih =>
    intro s k caps res h
    rw [matchRe] at h
    obtain ⟨s', c, hm, hk⟩ := ih s _ caps res h
    exact ⟨s', (i, s.take (s.length - s'.length)) :: c, MRe.grp hm, hk⟩
  | cat a b iha ihb =>
    intro s k caps res h
    rw [matchRe] at h
    obtain ⟨s₁, c₁, hma, hk₁⟩ := iha s _ caps res h
    obtain ⟨s₂, c₂, hmb, hk₂⟩ := ihb s₁ k (c₁ ++ caps) res hk₁
    refine ⟨s₂, c₂ ++ c₁, MRe.cat hma hmb, ?_⟩
    rw [List.append_assoc]
    exact hk₂

/-- Completeness of the engine: if the engine fails, the continuation fails
on every valid decomposition (the search over consumption counts is
exhaustive). -/
theorem matchRe_complete (r : RE) :
    ∀ (s : List Char) (k : List Char → Caps → Option Caps) (caps : Caps),
      matchRe r s k caps = none →
      ∀ s' c, MRe r s s' c → k s' (c ++ caps) = none := by
  induction r with
  | eps =>
    intro s k caps h s' c hm
    cases hm
    exact h
  | lit ch =>
    intro s k caps h s' c hm
    cases hm
    rw [matchRe, if_pos rfl] at h
    exact h
  | plus p =>
    intro s k caps h s' c hm
    cases hm with
    | plus t hne hall =>
      have hlen : 1 ≤ t.length := by
        cases t with
        | nil => exact absurd rfl hne
        | cons a t' => simp
      have hrun := length_le_runLen_of_all p t s' hall
      have hdrop : (t ++ s').drop t.length = s' := List.drop_left t s'
      have := firstSome_eq_none _ _ h t.length (by
        rw [List.mem_reverse, List.mem_range'_1]
        omega)
      rw [hdrop] at this
      exact this
  | star p =>
    intro s k caps h s' c hm
    cases hm with
    | star t hall =>
      have hrun := length_le_runLen_of_all p t s' hall
      have hdrop : (t ++ s').drop t.length = s' := List.drop_left t s'
      have := firstSome_eq_none _ _ h t.length (by
        rw [List.mem_reverse, List.mem_range]
        omega)
      rw [hdrop] at this
      exact this
  | rep p n =>
    intro s k caps h s' c hm
    cases hm with
    | rep t hlen hall =>
      have hrun := length_le_runLen_of_all p t s' hall
      rw [hlen] at hrun
      rw [matchRe, if_pos hrun] at h
      have hdrop : (t ++ s').drop t.length = s' := List.drop_left t s'
      rw [hlen] at hdrop
      rw [hdrop] at h
      exact h
  | grp i r ih =>
    intro s k caps h s' c hm
    cases hm with
    | grp hinner =>
      rw [matchRe] at h
      exact ih s _ caps h s' _ hinner
  | cat a b iha ihb =>
    intro s k caps h s₂ c hm
    cases hm with
    | cat hma hmb =>
      rw [matchRe] at h
      have h₁ := iha s _ caps h _ _ hma
      have h₂ := ihb _ k _ h₁ _ _ hmb
      rw [List.append_assoc]
      exact h₂

/-- A successful `reCaptures` is a full-line `MRe` decomposition. -/
theorem MRe_of_reCaptures {line : List Char} {caps : Caps}
    (h : reCaptures line = some caps) : MRe logPattern line [] caps := by
  rw [reCaptures] at h
  obtain ⟨s', c, hm, hk⟩ := matchRe_sound logPattern line _ [] caps h
  cases s' with
  | nil =>
    simp only [List.isEmpty_nil, if_pos, List.append_nil] at hk
    obtain rfl := Option.some.inj hk
    exact hm
  | cons a rest =>
    simp only [List.isEmpty_cons] at hk
    cases hk

/-- A full-line `MRe` decomposition forces `reCaptures` to succeed (with
engine-chosen captures). -/
theorem reCaptures_isSome_of_MRe {line : List Char} {caps : Caps}
    (h : MRe logPattern line [] caps) : (reCaptures line).isSome = true := by
  cases hr : reCaptures line with
  | some c => rfl
  | none =>
    rw [reCaptures] at hr
    have := matchRe_complete logPattern line _ [] hr [] caps h
    simp at this

/-!
## Piece-level inversion and construction for the log pattern
-/

/-- Inversion for a literal. -/
theorem MRe_lit_inv {ch : Char} {s s' : List Char} {c : Caps}
    (h : MRe (.lit ch) s s' c) : s = ch :: s' ∧ c = [] := by
  cases h
  exact ⟨rfl, rfl⟩

/-- Inversion for a bare `+` quantifier. -/
theorem MRe_plus_inv {p : Char → Bool} {s s' : List Char} {c : Caps}
    (h : MRe (.plus p) s s' c) :
    ∃ t, s = t ++ s' ∧ t ≠ [] ∧ (∀ a ∈ t, p a = true) ∧ c = [] := by
  cases h with
  | plus t hne hall => exact ⟨t, rfl, hne, hall, rfl⟩

/-- Inversion for a bare `*` quantifier. -/
theorem MRe_star_inv {p : Char → Bool} {s s' : List Char} {c : Caps}
    (h : MRe (.star p) s s' c) :
    ∃ t, s = t ++ s' ∧ (∀ a ∈ t, p a = true) ∧ c = [] := by
  cases h with
  | star t hall => exact ⟨t, rfl, hall, rfl⟩

/-- Inversion for a captured `+` quantifier. -/
theorem MRe_grp_plus_inv {i : Nat} {p : Char → Bool} {s s' : List Char} {c : Caps}
    (h : MRe (.grp i (.plus p)) s s' c) :
    ∃ t, s = t ++ s' ∧ t ≠ [] ∧ (∀ a ∈ t, p a = true) ∧ c = [(i, t)] := by
  cases h with
  | grp hinner =>
    cases hinner with
    | plus t hne hall => exact ⟨t, rfl, hne, hall, by rw [take_sub_length]⟩

/-- Inversion for a captured `*` quantifier. -/
theorem MRe_grp_star_inv {i : Nat} {p : Char → Bool} {s s' : List Char} {c : Caps}
    (h : MRe (.grp i (.star p)) s s' c) :
    ∃ t, s = t ++ s' ∧ (∀ a ∈ t, p a = true) ∧ c = [(i, t)] := by
  cases h with
  | grp hinner =>
    cases hinner with
    | star t hall => exact ⟨t, rfl, hall, by rw [take_sub_length]⟩

/-- Inversion for a captured `{n}` quantifier. -/
theorem MRe_grp_rep_inv {i n : Nat} {p : Char → Bool} {s s' : List Char} {c : Caps}
    (h : MRe (.grp i (.rep p n)) s s' c) :
    ∃ t, s = t ++ s' ∧ t.length = n ∧ (∀ a ∈ t, p a = true) ∧ c = [(i, t)] := by
  cases h with
  | grp hinner =>
    cases hinner with
    | rep t hlen hall => exact ⟨t, rfl, hlen, hall, by rw [take_sub_length]⟩

/-- Inversion for concatenation. -/
theorem MRe_cat_inv {a b : RE} {s s₂ : List Char} {caps : Caps}
    (h : MRe (.cat a b) s s₂ caps) :
    ∃ s₁ c₁ c₂, MRe a s s₁ c₁ ∧ MRe b s₁ s₂ c₂ ∧ caps = c₂ ++ c₁ := by
  cases h with
  | cat hma hmb => exact ⟨_, _, _, hma, hmb, rfl⟩

/-- Inversion for the empty tail of `cats`. -/
theorem MRe_cats_nil_inv {s s' : List Char} {c : Caps}
    (h : MRe (cats []) s s' c) : s' = s ∧ c = [] := by
  cases h
  exact ⟨rfl, rfl⟩

/-- Construction: the empty pattern list. -/
theorem MRe_cats_nil (s : List Char) : MRe (cats []) s s [] := MRe.eps

/-- Construction: one pattern piece then the rest. -/
theorem MRe_cats_cons {e : RE} {rest : List RE} {s s₁ s₂ : List Char}
    {c₁ c₂ : Caps} (h₁ : MRe e s s₁ c₁) (h₂ : MRe (cats rest) s₁ s₂ c₂) :
    MRe (cats (e :: rest)) s s₂ (c₂ ++ c₁) := MRe.cat h₁ h₂

/-- Construction: captured `+`. -/
theorem MRe_grp_plus (i : Nat) (p : Char → Bool) (t s : List Char) (hne : t ≠ [])
    (hall : ∀ a ∈ t, p a = true) : MRe (.grp i (.plus p)) (t ++ s) s [(i, t)] := by
  have h := MRe.grp (i := i) (MRe.plus t hne hall (s := s))
  rwa [take_sub_length] at h

/-- Construction: captured `*`. -/
theorem MRe_grp_star (i : Nat) (p : Char → Bool) (t s : List Char)
    (hall : ∀ a ∈ t, p a = true) : MRe (.grp i (.star p)) (t ++ s) s [(i, t)] := by
  have h := MRe.grp (i := i) (MRe.star t hall (s := s))
  rwa [take_sub_length] at h

/-- Construction: captured `{n}`. -/
theorem MRe_grp_rep (i n : Nat) (p : Char → Bool) (t s : List Char)
    (hlen : t.length = n) (hall : ∀ a ∈ t, p a = true) :
    MRe (.grp i (.rep p n)) (t ++ s) s [(i, t)] := by
  have h := MRe.grp (i := i) (MRe.rep t hlen hall (s := s))
  rwa [take_sub_length] at h

/-!
## Unique decomposition: peeling a concrete line

`chew` splits a list equation at the first character satisfying a class,
given that both sides present a class-free run followed by such a character.
Every boundary in the log pattern has this property, which pins the
decomposition of a concrete line down.
-/

/-- Splitting at the first `p`-character is unique. -/
theorem chew {p : Char → Bool} :
    ∀ (x : List Char) {y : List Char} {c c' : Char} {r r' : List Char},
      (∀ a ∈ x, p a = false) → (∀ a ∈ y, p a = false) →
      p c = true → p c' = true →
      x ++ c :: r = y ++ c' :: r' → x = y ∧ c = c' ∧ r = r' := by
  intro x
  induction x with
  | nil =>
    intro y c c' r r' _ hy hc _ heq
    cases y with
    | nil =>
      rw [List.nil_append, List.nil_append] at heq
      injection heq with h1 h2
      exact ⟨rfl, h1, h2⟩
    | cons b ys =>
      rw [List.nil_append, List.cons_append] at heq
      injection heq with h1 _
      rw [h1, hy b (List.mem_cons_self b ys)] at hc
      cases hc
  | cons a xs ih =>
    intro y c c' r r' hx hy hc hc' heq
    cases y with
    | nil =>
      rw [List.cons_append, List.nil_append] at heq
      injection heq with h1 _
      rw [← h1, hx a (List.mem_cons_self a xs)] at hc'
      cases hc'
    | cons b ys =>
      rw [List.cons_append, List.cons_append] at heq
      injection heq with h1 h2
      obtain ⟨hxy, hcc, hrr⟩ := ih (fun u hu => hx u (List.mem_cons_of_mem a hu))
        (fun u hu => hy u (List.mem_cons_of_mem b hu)) hc hc' h2
      exact ⟨by rw [h1, hxy], hcc, hrr⟩

/-- A whitespace character is not in `\S`. -/
theorem pNS_false_of_space {a : Char} (h : rsSpace a = true) : pNS a = false := by
  rw [pNS, h]
  rfl

/-- A `\S` character is not whitespace. -/
theorem space_false_of_pNS {a : Char} (h : pNS a = true) : rsSpace a = false := by
  rw [pNS] at h
  simpa using h

/-- ASCII digits are in `\S`. -/
theorem pNS_of_digit {a : Char} (h : asciiDigit a = true) : pNS a = true := by
  rw [asciiDigit] at h
  rw [pNS, rsSpace]
  simp only [Bool.and_eq_true, decide_eq_true_eq] at h
  simp only [Bool.not_eq_true', Bool.or_eq_false_iff, beq_eq_false_iff_ne, ne_eq,
    Bool.and_eq_false_iff, decide_eq_false_iff_not, not_le]
  omega

/-- Whitespace is never a double quote. -/
theorem quote_false_of_space {a : Char} (h : rsSpace a = true) : (a == '"') = false := by
  by_cases ha : a = '"'
  · subst ha
    exact absurd h (by decide)
  · exact beq_eq_false_iff_ne.mpr ha

/-- A `[^"]` character is not a double quote. -/
theorem quote_false_of_pNQ {a : Char} (h : pNQ a = true) : (a == '"') = false := by
  rw [pNQ] at h
  simpa using h

/-- A `[^\]]` character is not a closing bracket. -/
theorem rb_false_of_pNB {a : Char} (h : pNB a = true) : (a == ']') = false := by
  rw [pNB] at h
  simpa using h

/-- A non-whitespace character is in `\S`. -/
theorem pNS_of_space_false {a : Char} (h : rsSpace a = false) : pNS a = true := by
  rw [pNS, h]
  rfl

set_option maxHeartbeats 1600000 in
/-- Inversion of a match of the last ten pattern pieces (group 9 through the
trailing whitespace). -/
theorem tailC_inv {s s₂ : List Char} {caps : Caps} (h : MRe (cats tailC) s s₂ caps) :
    ShapeC s s₂ caps := by
  obtain ⟨sP0, cP0, crP0, hp0, h0, rfl⟩ := MRe_cat_inv h
  obtain ⟨g9, rfl, hg9ne, hg9all, rfl⟩ := MRe_grp_plus_inv hp0
  obtain ⟨sP1, cP1, crP1, hp1, h1, rfl⟩ := MRe_cat_inv h0
  obtain ⟨w9, rfl, hw9ne, hw9all, rfl⟩ := MRe_plus_inv hp1
  obtain ⟨sP2, cP2, crP2, hp2, h2, rfl⟩ := MRe_cat_inv h1
  obtain ⟨rfl, rfl⟩ := MRe_lit_inv hp2
  obtain ⟨sP3, cP3, crP3, hp3, h3, rfl⟩ := MRe_cat_inv h2
  obtain ⟨g10, rfl, hg10all, rfl⟩ := MRe_grp_star_inv hp3
  obtain ⟨sP4, cP4, crP4, hp4, h4, rfl⟩ := MRe_cat_inv h3
  obtain ⟨rfl, rfl⟩ := MRe_lit_inv hp4
  obtain ⟨sP5, cP5, crP5, hp5, h5, rfl⟩ := MRe_cat_inv h4
  obtain ⟨w10, rfl, hw10ne, hw10all, rfl⟩ := MRe_plus_inv hp5
  obtain ⟨sP6, cP6, crP6, hp6, h6, rfl⟩ := MRe_cat_inv h5
  obtain ⟨rfl, rfl⟩ := MRe_lit_inv hp6
  obtain ⟨sP7, cP7, crP7, hp7, h7, rfl⟩ := MRe_cat_inv h6
  obtain ⟨g11, rfl, hg11all, rfl⟩ := MRe_grp_star_inv hp7
  obtain ⟨sP8, cP8, crP8, hp8, h8, rfl⟩ := MRe_cat_inv h7
  obtain ⟨rfl, rfl⟩ := MRe_lit_inv hp8
  obtain ⟨sP9, cP9, crP9, hp9, h9, rfl⟩ := MRe_cat_inv h8
  obtain ⟨w11, rfl, hw11all, rfl⟩ := MRe_star_inv hp9
  obtain ⟨rfl, rfl⟩ := MRe_cats_nil_inv h9
  rw [ShapeC]
  refine ⟨g9, g10, g11, w9, w10, w11, rfl, ?_,
    ⟨hg9ne, hg9all⟩, hg10all, hg11all,
    ⟨hw9ne, hw9all⟩, ⟨hw10ne, hw10all⟩, hw11all⟩
  simp

set_option maxHeartbeats 1600000 in
/-- Inversion of a match of the last twenty pattern pieces (the quote before
group 5 through the trailing whitespace). -/
theorem tailB_inv {s s₂ : List Char} {caps : Caps} (h : MRe (cats tailB) s s₂ caps) :
    ShapeB s s₂ caps := by
  obtain ⟨sP0, cP0, crP0, hp0, h0, rfl⟩ := MRe_cat_inv h
  obtain ⟨rfl, rfl⟩ := MRe_lit_inv hp0
  obtain ⟨sP1, cP1, crP1, hp1, h1, rfl⟩ := MRe_cat_inv h0
  obtain ⟨g5, rfl, hg5ne, hg5all, rfl⟩ := MRe_grp_plus_inv hp1
  obtain ⟨sP2, cP2, crP2, hp2, h2, rfl⟩ := MRe_cat_inv h1
  obtain ⟨w5, rfl, hw5ne, hw5all, rfl⟩ := MRe_plus_inv hp2
  obtain ⟨sP3, cP3, crP3, hp3, h3, rfl⟩ := MRe_cat_inv h2
  obtain ⟨g6, rfl, hg6ne, hg6all, rfl⟩ := MRe_grp_plus_inv hp3
  obtain ⟨sP4, cP4, crP4, hp4, h4, rfl⟩ := MRe_cat_inv h3
  obtain ⟨w6, rfl, hw6ne, hw6all, rfl⟩ := MRe_plus_inv hp4
  obtain ⟨sP5, cP5, crP5, hp5, h5, rfl⟩ := MRe_cat_inv h4
  obtain ⟨g7, rfl, hg7ne, hg7all, rfl⟩ := MRe_grp_plus_inv hp5
  obtain ⟨sP6, cP6, crP6, hp6, h6, rfl⟩ := MRe_cat_inv h5
  obtain ⟨rfl, rfl⟩ := MRe_lit_inv hp6
  obtain ⟨sP7, cP7, crP7, hp7, h7, rfl⟩ := MRe_cat_inv h6
  obtain ⟨w7, rfl, hw7ne, hw7all, rfl⟩ := MRe_plus_inv hp7
  obtain ⟨sP8, cP8, crP8, hp8, h8, rfl⟩ := MRe_cat_inv h7
  obtain ⟨g8, rfl, hg8len, hg8all, rfl⟩ := MRe_grp_rep_inv hp8
  obtain ⟨sP9, cP9, crP9, hp9, h9, rfl⟩ := MRe_cat_inv h8
  obtain ⟨w8, rfl, hw8ne, hw8all, rfl⟩ := MRe_plus_inv hp9
  have hC := tailC_inv h9
  rw [ShapeC] at hC
  obtain ⟨g9, g10, g11, w9, w10, w11, hsC, hcC, hg9, hg10, hg11, hw9, hw10, hw11⟩ := hC
  subst hsC
  subst hcC
  rw [ShapeB]
  refine ⟨g5, g6, g7, g8, g9, g10, g11, w5, w6, w7, w8, w9, w10, w11, rfl, ?_,
    ⟨hg5ne, hg5all⟩, ⟨hg6ne, hg6all⟩, ⟨hg7ne, hg7all⟩, ⟨hg8len, hg8all⟩,
    hg9, hg10, hg11,
    ⟨hw5ne, hw5all⟩, ⟨hw6ne, hw6all⟩, ⟨hw7ne, hw7all⟩, ⟨hw8ne, hw8all⟩,
    hw9, hw10, hw11⟩
  simp

set_option maxHeartbeats 1600000 in
/-- Full inversion of a line matching the log pattern: the 24-piece
decomposition with per-piece class constraints and the capture list. -/
theorem logPattern_inv {s s₂ : List Char} {caps : Caps} (h : MRe logPattern s s₂ caps) :
    LineShape s s₂ caps := by
  obtain ⟨sP0, cP0, crP0, hp0, h0, rfl⟩ := MRe_cat_inv h
  obtain ⟨g1, rfl, hg1ne, hg1all, rfl⟩ := MRe_grp_plus_inv hp0
  obtain ⟨sP1, cP1, crP1, hp1, h1, rfl⟩ := MRe_cat_inv h0
  obtain ⟨w1, rfl, hw1ne, hw1all, rfl⟩ := MRe_plus_inv hp1
  obtain ⟨sP2, cP2, crP2, hp2, h2, rfl⟩ := MRe_cat_inv h1
  obtain ⟨g2, rfl, hg2ne, hg2all, rfl⟩ := MRe_grp_plus_inv hp2
  obtain ⟨sP3, cP3, crP3, hp3, h3, rfl⟩ := MRe_cat_inv h2
  obtain ⟨w2, rfl, hw2ne, hw2all, rfl⟩ := MRe_plus_inv hp3
  obtain ⟨sP4, cP4, crP4, hp4, h4, rfl⟩ := MRe_cat_inv h3
  obtain ⟨g3, rfl, hg3ne, hg3all, rfl⟩ := MRe_grp_plus_inv hp4
  obtain ⟨sP5, cP5, crP5, hp5, h5, rfl⟩ := MRe_cat_inv h4
  obtain ⟨w3, rfl, hw3ne, hw3all, rfl⟩ := MRe_plus_inv hp5
  obtain ⟨sP6, cP6, crP6, hp6, h6, rfl⟩ := MRe_cat_inv h5
  obtain ⟨rfl, rfl⟩ := MRe_lit_inv hp6
  obtain ⟨sP7, cP7, crP7, hp7, h7, rfl⟩ := MRe_cat_inv h6
  obtain ⟨g4, rfl, hg4ne, hg4all, rfl⟩ := MRe_grp_plus_inv hp7
  obtain ⟨sP8, cP8, crP8, hp8, h8, rfl⟩ := MRe_cat_inv h7
  obtain ⟨rfl, rfl⟩ := MRe_lit_inv hp8
  obtain ⟨sP9, cP9, crP9, hp9, h9, rfl⟩ := MRe_cat_inv h8
  obtain ⟨w4, rfl, hw4ne, hw4all, rfl⟩ := MRe_plus_inv hp9
  have hB := tailB_inv h9
  rw [ShapeB] at hB
  obtain ⟨g5, g6, g7, g8, g9, g10, g11, w5, w6, w7, w8, w9, w10, w11, hsB, hcB,
    hg5, hg6, hg7, hg8, hg9, hg10, hg11, hw5, hw6, hw7, hw8, hw9, hw10, hw11⟩ := hB
  subst hsB
  subst hcB
  rw [LineShape]
  refine ⟨g1, g2, g3, g4, g5, g6, g7, g8, g9, g10, g11,
    w1, w2, w3, w4, w5, w6, w7, w8, w9, w10, w11, rfl, ?_,
    ⟨hg1ne, hg1all⟩, ⟨hg2ne, hg2all⟩, ⟨hg3ne, hg3all⟩, ⟨hg4ne, hg4all⟩,
    hg5, hg6, hg7, hg8, hg9, hg10, hg11,
    ⟨hw1ne, hw1all⟩, ⟨hw2ne, hw2all⟩, ⟨hw3ne, hw3all⟩, ⟨hw4ne, hw4all⟩,
    hw5, hw6, hw7, hw8, hw9, hw10, hw11⟩
  simp

/-!
## Numeric evaluation lemma and construction of the canonical match
-/

/-- Three ASCII digits always parse as an `i32` (the value is below 1000). -/
theorem parseI32_three_digits (a b c : Char) (ha : asciiDigit a = true)
    (hb : asciiDigit b = true) (hc : asciiDigit c = true) :
    ∃ v, parseI32 [a, b, c] = some v := by
  have ha1 : 48 ≤ a.toNat ∧ a.toNat ≤ 57 := by simpa [asciiDigit] using ha
  have hb1 : 48 ≤ b.toNat ∧ b.toNat ≤ 57 := by simpa [asciiDigit] using hb
  have hc1 : 48 ≤ c.toNat ∧ c.toNat ≤ 57 := by simpa [asciiDigit] using hc
  have hna : ¬ a = '-' := fun h => absurd ha (by rw [h]; decide)
  have hnp : ¬ a = '+' := fun h => absurd ha (by rw [h]; decide)
  rw [parseI32, parseSigned, if_neg hna, if_neg hnp, parseSignedCore]
  have hdig : digitsToNat [a, b, c] =
      some (((0 * 10 + (a.toNat - 48)) * 10 + (b.toNat - 48)) * 10 + (c.toNat - 48)) := by
    rw [digitsToNat, if_pos]
    · rfl
    · refine ⟨by simp, ?_⟩
      simp [List.all_cons, ha, hb, hc]
  rw [hdig, Option.some_bind]
  set N : Nat := ((0 * 10 + (a.toNat - 48)) * 10 + (b.toNat - 48)) * 10 + (c.toNat - 48) with hN
  refine ⟨(N : Int), ?_⟩
  show (if -(2 ^ 31) ≤ (N : Int) ∧ (N : Int) ≤ 2 ^ 31 - 1 then some ((N : Int)) else none) =
    some ((N : Int))
  rw [if_pos]
  constructor
  · have : (0 : Int) ≤ (N : Int) := Int.ofNat_nonneg N
    omega
  · have hNb : N ≤ 999 := by
      rw [hN]
      omega
    omega

/-- Any list of pieces satisfying the per-piece class constraints assembles
into a full match of the log pattern. -/
theorem logPattern_construct
    (g1 g2 g3 g4 g5 g6 g7 g8 g9 g10 g11 w1 w2 w3 w4 w5 w6 w7 w8 w9 w10 w11 : List Char)
    (hg1ne : g1 ≠ []) (hg1 : ∀ a ∈ g1, pNS a = true)
    (hg2ne : g2 ≠ []) (hg2 : ∀ a ∈ g2, pNS a = true)
    (hg3ne : g3 ≠ []) (hg3 : ∀ a ∈ g3, pNS a = true)
    (hg4ne : g4 ≠ []) (hg4 : ∀ a ∈ g4, pNB a = true)
    (hg5ne : g5 ≠ []) (hg5 : ∀ a ∈ g5, pNS a = true)
    (hg6ne : g6 ≠ []) (hg6 : ∀ a ∈ g6, pNS a = true)
    (hg7ne : g7 ≠ []) (hg7 : ∀ a ∈ g7, pNQ a = true)
    (hg8len : g8.length = 3) (hg8 : ∀ a ∈ g8, asciiDigit a = true)
    (hg9ne : g9 ≠ []) (hg9 : ∀ a ∈ g9, pNS a = true)
    (hg10 : ∀ a ∈ g10, pNQ a = true) (hg11 : ∀ a ∈ g11, pNQ a = true)
    (hw1ne : w1 ≠ []) (hw1 : ∀ a ∈ w1, rsSpace a = true)
    (hw2ne : w2 ≠ []) (hw2 : ∀ a ∈ w2, rsSpace a = true)
    (hw3ne : w3 ≠ []) (hw3 : ∀ a ∈ w3, rsSpace a = true)
    (hw4ne : w4 ≠ []) (hw4 : ∀ a ∈ w4, rsSpace a = true)
    (hw5ne : w5 ≠ []) (hw5 : ∀ a ∈ w5, rsSpace a = true)
    (hw6ne : w6 ≠ []) (hw6 : ∀ a ∈ w6, rsSpace a = true)
    (hw7ne : w7 ≠ []) (hw7 : ∀ a ∈ w7, rsSpace a = true)
    (hw8ne : w8 ≠ []) (hw8 : ∀ a ∈ w8, rsSpace a = true)
    (hw9ne : w9 ≠ []) (hw9 : ∀ a ∈ w9, rsSpace a = true)
    (hw10ne : w10 ≠ []) (hw10 : ∀ a ∈ w10, rsSpace a = true)
    (hw11 : ∀ a ∈ w11, rsSpace a = true) :
    ∃ caps, MRe logPattern
      (g1 ++ (w1 ++ (g2 ++ (w2 ++ (g3 ++ (w3 ++ ('[' :: (g4 ++ (']' :: (w4 ++
        ('"' :: (g5 ++ (w5 ++ (g6 ++ (w6 ++ (g7 ++ ('"' :: (w7 ++ (g8 ++ (w8 ++
        (g9 ++ (w9 ++ ('"' :: (g10 ++ ('"' :: (w10 ++ ('"' :: (g11 ++ ('"' ::
        (w11 ++ [])))))))))))))))))))))))))))))) [] caps :=
  ⟨_, MRe_cats_cons (MRe_grp_plus 1 pNS g1 _ hg1ne hg1)
    (MRe_cats_cons (MRe.plus w1 hw1ne hw1)
    (MRe_cats_cons (MRe_grp_plus 2 pNS g2 _ hg2ne hg2)
    (MRe_cats_cons (MRe.plus w2 hw2ne hw2)
    (MRe_cats_cons (MRe_grp_plus 3 pNS g3 _ hg3ne hg3)
    (MRe_cats_cons (MRe.plus w3 hw3ne hw3)
    (MRe_cats_cons (MRe.lit)
    (MRe_cats_cons (MRe_grp_plus 4 pNB g4 _ hg4ne hg4)
    (MRe_cats_cons (MRe.lit)
    (MRe_cats_cons (MRe.plus w4 hw4ne hw4)
    (MRe_cats_cons (MRe.lit)
    (MRe_cats_cons (MRe_grp_plus 5 pNS g5 _ hg5ne hg5)
    (MRe_cats_cons (MRe.plus w5 hw5ne hw5)
    (MRe_cats_cons (MRe_grp_plus 6 pNS g6 _ hg6ne hg6)
    (MRe_cats_cons (MRe.plus w6 hw6ne hw6)
    (MRe_cats_cons (MRe_grp_plus 7 pNQ g7 _ hg7ne hg7)
    (MRe_cats_cons (MRe.lit)
    (MRe_cats_cons (MRe.plus w7 hw7ne hw7)
    (MRe_cats_cons (MRe_grp_rep 8 3 asciiDigit g8 _ hg8len hg8)
    (MRe_cats_cons (MRe.plus w8 hw8ne hw8)
    (MRe_cats_cons (MRe_grp_plus 9 pNS g9 _ hg9ne hg9)
    (MRe_cats_cons (MRe.plus w9 hw9ne hw9)
    (MRe_cats_cons (MRe.lit)
    (MRe_cats_cons (MRe_grp_star 10 pNQ g10 _ hg10)
    (MRe_cats_cons (MRe.lit)
    (MRe_cats_cons (MRe.plus w10 hw10ne hw10)
    (MRe_cats_cons (MRe.lit)
    (MRe_cats_cons (MRe_grp_star 11 pNQ g11 _ hg11)
    (MRe_cats_cons (MRe.lit)
    (MRe_cats_cons (MRe.star w11 hw11)
    (MRe_cats_nil []))))))))))))))))))))))))))))))⟩

/-- The canonical line with a three-ASCII-digit status slot matches the
grammar. -/
theorem statusLine_construct (c0 c1 c2 : Char) (h0 : asciiDigit c0 = true)
    (h1 : asciiDigit c1 = true) (h2 : asciiDigit c2 = true) :
    ∃ caps, MRe logPattern (statusLine [c0, c1, c2]) [] caps := by
  obtain ⟨caps, hm⟩ := logPattern_construct (strL "203.0.113.5") ['-'] (strL "joe")
    (strL "15/Feb/2026:00:00:04 +0000") (strL "GET") (strL "http://e/") (strL "HTTP/1.1")
    [c0, c1, c2] (strL "512") (strL "US") (strL "UA")
    [' '] [' '] [' '] [' '] [' '] [' '] [' '] [' '] [' '] [' '] []
    (by decide) (by decide) (by decide) (by decide) (by decide) (by decide)
    (by decide) (by decide) (by decide) (by decide) (by decide) (by decide)
    (by decide) (by decide) rfl
    (by
      intro x hx
      simp only [List.mem_cons, List.not_mem_nil, or_false] at hx
      rcases hx with rfl | rfl | rfl
      · exact h0
      · exact h1
      · exact h2)
    (by decide) (by decide) (by decide) (by decide)
    (by decide) (by decide) (by decide) (by decide) (by decide) (by decide)
    (by decide) (by decide) (by decide) (by decide) (by decide) (by decide)
    (by decide) (by decide) (by decide) (by decide) (by decide) (by decide)
    (by decide) (by decide) (by simp)
  exact ⟨caps, hm⟩

set_option maxHeartbeats 1600000 in
/-- Unique decomposition of the canonical status-test line: a grammar
decomposition exists only when the status slot is exactly three ASCII
digits, and then every capture is pinned. -/
theorem statusLine_decomp (s : List Char)
    (hsp : ∀ x ∈ s, rsSpace x = false)
    {caps : Caps} (h : LineShape (statusLine s) [] caps) :
    s.length = 3 ∧ (∀ x ∈ s, asciiDigit x = true) ∧
    caps = [(11, strL "UA"), (10, strL "US"), (9, strL "512"), (8, s),
            (7, strL "HTTP/1.1"), (6, strL "http://e/"), (5, strL "GET"),
            (4, strL "15/Feb/2026:00:00:04 +0000"), (3, strL "joe"),
            (2, ['-']), (1, strL "203.0.113.5")] := by
  obtain ⟨g1, g2, g3, g4, g5, g6, g7, g8, g9, g10, g11,
    w1, w2, w3, w4, w5, w6, w7, w8, w9, w10, w11, heq0, hcaps,
    hG1, hG2, hG3, hG4, hG5, hG6, hG7, hG8, hG9, hG10, hG11,
    hW1, hW2, hW3, hW4, hW5, hW6, hW7, hW8, hW9, hW10, hW11⟩ := h
  obtain ⟨cw1, w1t, rfl⟩ := List.exists_cons_of_ne_nil hW1.1
  simp only [List.cons_append] at heq0
  rw [show statusLine s = strL "203.0.113.5" ++ ' ' ::
      (strL "- joe [15/Feb/2026:00:00:04 +0000] \"GET http://e/ HTTP/1.1\" " ++
        (s ++ statusLineB)) from rfl] at heq0
  obtain ⟨rfl, rfl, heq1⟩ := chew (p := rsSpace) (strL "203.0.113.5") (by decide)
    (fun a ha => space_false_of_pNS (hG1.2 a ha)) (by decide)
    (hW1.2 cw1 (List.mem_cons_self _ _)) heq0
  obtain ⟨cg2, g2t, rfl⟩ := List.exists_cons_of_ne_nil hG2.1
  simp only [List.cons_append] at heq1
  rw [show strL "- joe [15/Feb/2026:00:00:04 +0000] \"GET http://e/ HTTP/1.1\" " ++
      (s ++ statusLineB) = ([] : List Char) ++ '-' ::
      (strL " joe [15/Feb/2026:00:00:04 +0000] \"GET http://e/ HTTP/1.1\" " ++
        (s ++ statusLineB)) from rfl] at heq1
  obtain ⟨rfl, rfl, heq2⟩ := chew (p := pNS) [] (by simp)
    (fun a ha => pNS_false_of_space (hW1.2 a (List.mem_cons_of_mem _ ha))) (by decide)
    (hG2.2 _ (List.mem_cons_self _ _)) heq1
  obtain ⟨cw2, w2t, rfl⟩ := List.exists_cons_of_ne_nil hW2.1
  simp only [List.cons_append] at heq2
  rw [show strL " joe [15/Feb/2026:00:00:04 +0000] \"GET http://e/ HTTP/1.1\" " ++
      (s ++ statusLineB) = ([] : List Char) ++ ' ' ::
      (strL "joe [15/Feb/2026:00:00:04 +0000] \"GET http://e/ HTTP/1.1\" " ++
        (s ++ statusLineB)) from rfl] at heq2
  obtain ⟨rfl, rfl, heq3⟩ := chew (p := rsSpace) [] (by simp)
    (fun a ha => space_false_of_pNS (hG2.2 a (List.mem_cons_of_mem _ ha))) (by decide)
    (hW2.2 _ (List.mem_cons_self _ _)) heq2
  obtain ⟨cg3, g3t, rfl⟩ := List.exists_cons_of_ne_nil hG3.1
  simp only [List.cons_append] at heq3
  rw [show strL "joe [15/Feb/2026:00:00:04 +0000] \"GET http://e/ HTTP/1.1\" " ++
      (s ++ statusLineB) = ([] : List Char) ++ 'j' ::
      (strL "oe [15/Feb/2026:00:00:04 +0000] \"GET http://e/ HTTP/1.1\" " ++
        (s ++ statusLineB)) from rfl] at heq3
  obtain ⟨rfl, rfl, heq4⟩ := chew (p := pNS) [] (by simp)
    (fun a ha => pNS_false_of_space (hW2.2 a (List.mem_cons_of_mem _ ha))) (by decide)
    (hG3.2 _ (List.mem_cons_self _ _)) heq3
  obtain ⟨cw3, w3t, rfl⟩ := List.exists_cons_of_ne_nil hW3.1
  simp only [List.cons_append] at heq4
  rw [show strL "oe [15/Feb/2026:00:00:04 +0000] \"GET http://e/ HTTP/1.1\" " ++
      (s ++ statusLineB) = strL "oe" ++ ' ' ::
      (strL "[15/Feb/2026:00:00:04 +0000] \"GET http://e/ HTTP/1.1\" " ++
        (s ++ statusLineB)) from rfl] at heq4
  obtain ⟨rfl, rfl, heq5⟩ := chew (p := rsSpace) (strL "oe") (by decide)
    (fun a ha => space_false_of_pNS (hG3.2 a (List.mem_cons_of_mem _ ha))) (by decide)
    (hW3.2 _ (List.mem_cons_self _ _)) heq4
  rw [show strL "[15/Feb/2026:00:00:04 +0000] \"GET http://e/ HTTP/1.1\" " ++
      (s ++ statusLineB) = ([] : List Char) ++ '[' ::
      (strL "15/Feb/2026:00:00:04 +0000] \"GET http://e/ HTTP/1.1\" " ++
        (s ++ statusLineB)) from rfl] at heq5
  obtain ⟨rfl, -, heq6⟩ := chew (p := pNS) [] (by simp)
    (fun a ha => pNS_false_of_space (hW3.2 a (List.mem_cons_of_mem _ ha))) (by decide)
    (by decide) heq5
  rw [show strL "15/Feb/2026:00:00:04 +0000] \"GET http://e/ HTTP/1.1\" " ++
      (s ++ statusLineB) = strL "15/Feb/2026:00:00:04 +0000" ++ ']' ::
      (strL " \"GET http://e/ HTTP/1.1\" " ++ (s ++ statusLineB)) from rfl] at heq6
  obtain ⟨rfl, -, heq7⟩ := chew (p := fun a => a == ']')
    (strL "15/Feb/2026:00:00:04 +0000") (by decide)
    (fun a ha => rb_false_of_pNB (hG4.2 a ha)) (by decide) (by decide) heq6
  rw [show strL " \"GET http://e/ HTTP/1.1\" " ++ (s ++ statusLineB) =
      [' '] ++ '"' :: (strL "GET http://e/ HTTP/1.1\" " ++ (s ++ statusLineB))
      from rfl] at heq7
  obtain ⟨rfl, -, heq8⟩ := chew (p := pNS) [' '] (by decide)
    (fun a ha => pNS_false_of_space (hW4.2 a ha)) (by decide) (by decide) heq7
  obtain ⟨cw5, w5t, rfl⟩ := List.exists_cons_of_ne_nil hW5.1
  simp only [List.cons_append] at heq8
  rw [show strL "GET http://e/ HTTP/1.1\" " ++ (s ++ statusLineB) =
      strL "GET" ++ ' ' :: (strL "http://e/ HTTP/1.1\" " ++ (s ++ statusLineB))
      from rfl] at heq8
  obtain ⟨rfl, rfl, heq9⟩ := chew (p := rsSpace) (strL "GET") (by decide)
    (fun a ha => space_false_of_pNS (hG5.2 a ha)) (by decide)
    (hW5.2 _ (List.mem_cons_self _ _)) heq8
  obtain ⟨cg6, g6t, rfl⟩ := List.exists_cons_of_ne_nil hG6.1
  simp only [List.cons_append] at heq9
  rw [show strL "http://e/ HTTP/1.1\" " ++ (s ++ statusLineB) =
      ([] : List Char) ++ 'h' :: (strL "ttp://e/ HTTP/1.1\" " ++ (s ++ statusLineB))
      from rfl] at heq9
  obtain ⟨rfl, rfl, heq10⟩ := chew (p := pNS) [] (by simp)
    (fun a ha => pNS_false_of_space (hW5.2 a (List.mem_cons_of_mem _ ha))) (by decide)
    (hG6.2 _ (List.mem_cons_self _ _)) heq9
  obtain ⟨cw6, w6t, rfl⟩ := List.exists_cons_of_ne_nil hW6.1
  simp only [List.cons_append] at heq10
  rw [show strL "ttp://e/ HTTP/1.1\" " ++ (s ++ statusLineB) =
      strL "ttp://e/" ++ ' ' :: (strL "HTTP/1.1\" " ++ (s ++ statusLineB))
      from rfl] at heq10
  obtain ⟨rfl, rfl, heq11⟩ := chew (p := rsSpace) (strL "ttp://e/") (by decide)
    (fun a ha => space_false_of_pNS (hG6.2 a (List.mem_cons_of_mem _ ha))) (by decide)
    (hW6.2 _ (List.mem_cons_self _ _)) heq10
  conv at heq11 =>
    rhs
    rw [← List.append_assoc]
  rw [show strL "HTTP/1.1\" " ++ (s ++ statusLineB) =
      strL "HTTP/1.1" ++ '"' :: (' ' :: (s ++ statusLineB)) from rfl] at heq11
  obtain ⟨hx12, -, heq12⟩ := chew (p := fun a => a == '"') (strL "HTTP/1.1") (by decide)
    (fun a ha => (List.mem_append.mp ha).elim
      (fun hmem => quote_false_of_space (hW6.2 a (List.mem_cons_of_mem _ hmem)))
      (fun hmem => quote_false_of_pNQ (hG7.2 a hmem)))
    (by decide) (by decide) heq11
  cases w6t with
  | cons cq wq =>
    rw [List.cons_append] at hx12
    rw [show strL "HTTP/1.1" = 'H' :: strL "TTP/1.1" from rfl] at hx12
    injection hx12 with hH hrest
    have hsq := hW6.2 cq (List.mem_cons_of_mem _ (List.mem_cons_self _ _))
    rw [← hH] at hsq
    exact absurd hsq (by decide)
  | nil =>
    rw [List.nil_append] at hx12
    subst hx12
    obtain ⟨d1, d2, d3, rfl⟩ := List.length_eq_three.mp hG8.1
    simp only [List.cons_append, List.nil_append] at heq12
    cases s with
    | nil =>
      rw [List.nil_append] at heq12
      rw [show ' ' :: statusLineB = [' ', ' '] ++ '5' :: strL "12 \"US\" \"UA\""
          from rfl] at heq12
      obtain ⟨-, -, heq13⟩ := chew (p := pNS) [' ', ' '] (by decide)
        (fun a ha => pNS_false_of_space (hW7.2 a ha)) (by decide)
        (pNS_of_digit (hG8.2 d1 (by simp))) heq12
      rw [show strL "12 \"US\" \"UA\"" = '1' :: ('2' :: strL " \"US\" \"UA\"")
          from rfl] at heq13
      injection heq13 with h1 heq14
      injection heq14 with h2 heq15
      obtain ⟨cg9, g9t, rfl⟩ := List.exists_cons_of_ne_nil hG9.1
      simp only [List.cons_append] at heq15
      rw [show strL " \"US\" \"UA\"" = [' '] ++ '"' :: strL "US\" \"UA\"" from rfl] at heq15
      obtain ⟨-, -, heq16⟩ := chew (p := pNS) [' '] (by decide)
        (fun a ha => pNS_false_of_space (hW8.2 a ha)) (by decide)
        (hG9.2 _ (List.mem_cons_self _ _)) heq15
      obtain ⟨cw9, w9t, rfl⟩ := List.exists_cons_of_ne_nil hW9.1
      simp only [List.cons_append] at heq16
      rw [show strL "US\" \"UA\"" = strL "US\"" ++ ' ' :: strL "\"UA\"" from rfl] at heq16
      obtain ⟨-, -, heq17⟩ := chew (p := rsSpace) (strL "US\"") (by decide)
        (fun a ha => space_false_of_pNS (hG9.2 a (List.mem_cons_of_mem _ ha))) (by decide)
        (hW9.2 _ (List.mem_cons_self _ _)) heq16
      rw [show strL "\"UA\"" = ([] : List Char) ++ '"' :: strL "UA\"" from rfl] at heq17
      obtain ⟨-, -, heq18⟩ := chew (p := pNS) [] (by simp)
        (fun a ha => pNS_false_of_space (hW9.2 a (List.mem_cons_of_mem _ ha))) (by decide)
        (by decide) heq17
      rw [show strL "UA\"" = strL "UA" ++ '"' :: ([] : List Char) from rfl] at heq18
      obtain ⟨-, -, heq19⟩ := chew (p := fun a => a == '"') (strL "UA") (by decide)
        (fun a ha => quote_false_of_pNQ (hG10 a ha)) (by decide) (by decide) heq18
      obtain ⟨cw10, w10t, rfl⟩ := List.exists_cons_of_ne_nil hW10.1
      simp only [List.cons_append] at heq19
      exact absurd heq19 (by simp)
    | cons c0 s1 =>
      rw [List.cons_append] at heq12
      rw [show ' ' :: (c0 :: (s1 ++ statusLineB)) =
          [' '] ++ c0 :: (s1 ++ statusLineB) from rfl] at heq12
      obtain ⟨rfl, rfl, heq20⟩ := chew (p := pNS) [' '] (by decide)
        (fun a ha => pNS_false_of_space (hW7.2 a ha))
        (pNS_of_space_false (hsp c0 (List.mem_cons_self _ _)))
        (pNS_of_digit (hG8.2 d1 (by simp))) heq12
      cases s1 with
      | nil =>
        rw [List.nil_append] at heq20
        rw [show statusLineB = ' ' :: strL "512 \"US\" \"UA\"" from rfl] at heq20
        injection heq20 with h2 heq21
        have hd2 := hG8.2 d2 (by simp)
        rw [← h2] at hd2
        exact absurd hd2 (by decide)
      | cons c1 s2 =>
        rw [List.cons_append] at heq20
        injection heq20 with h2 heq22
        subst h2
        cases s2 with
        | nil =>
          rw [List.nil_append] at heq22
          rw [show statusLineB = ' ' :: strL "512 \"US\" \"UA\"" from rfl] at heq22
          injection heq22 with h3 heq23
          have hd3 := hG8.2 d3 (by simp)
          rw [← h3] at hd3
          exact absurd hd3 (by decide)
        | cons c2 s3 =>
          rw [List.cons_append] at heq22
          injection heq22 with h3 heq24
          subst h3
          cases s3 with
          | cons c3 s4 =>
            obtain ⟨cw8, w8t, rfl⟩ := List.exists_cons_of_ne_nil hW8.1
            simp only [List.cons_append] at heq24
            injection heq24 with h4 heq25
            have hs3 := hsp c3 (by simp)
            have hw8h := hW8.2 cw8 (List.mem_cons_self _ _)
            rw [← h4] at hw8h
            rw [hw8h] at hs3
            exact absurd hs3 (by decide)
          | nil =>
            rw [List.nil_append] at heq24
            obtain ⟨cg9, g9t, rfl⟩ := List.exists_cons_of_ne_nil hG9.1
            simp only [List.cons_append] at heq24
            rw [show statusLineB = [' '] ++ '5' :: strL "12 \"US\" \"UA\"" from rfl] at heq24
            obtain ⟨rfl, rfl, heq26⟩ := chew (p := pNS) [' '] (by decide)
              (fun a ha => pNS_false_of_space (hW8.2 a ha)) (by decide)
              (hG9.2 _ (List.mem_cons_self _ _)) heq24
            obtain ⟨cw9, w9t, rfl⟩ := List.exists_cons_of_ne_nil hW9.1
            simp only [List.cons_append] at heq26
            rw [show strL "12 \"US\" \"UA\"" = strL "12" ++ ' ' :: strL "\"US\" \"UA\""
                from rfl] at heq26
            obtain ⟨rfl, rfl, heq27⟩ := chew (p := rsSpace) (strL "12") (by decide)
              (fun a ha => space_false_of_pNS (hG9.2 a (List.mem_cons_of_mem _ ha)))
              (by decide) (hW9.2 _ (List.mem_cons_self _ _)) heq26
            rw [show strL "\"US\" \"UA\"" = ([] : List Char) ++ '"' :: strL "US\" \"UA\""
                from rfl] at heq27
            obtain ⟨rfl, -, heq28⟩ := chew (p := pNS) [] (by simp)
              (fun a ha => pNS_false_of_space (hW9.2 a (List.mem_cons_of_mem _ ha)))
              (by decide) (by decide) heq27
            rw [show strL "US\" \"UA\"" = strL "US" ++ '"' :: strL " \"UA\"" from rfl] at heq28
            obtain ⟨rfl, -, heq29⟩ := chew (p := fun a => a == '"') (strL "US") (by decide)
              (fun a ha => quote_false_of_pNQ (hG10 a ha)) (by decide) (by decide) heq28
            rw [show strL " \"UA\"" = [' '] ++ '"' :: strL "UA\"" from rfl] at heq29
            obtain ⟨rfl, -, heq30⟩ := chew (p := fun a => a == '"') [' '] (by decide)
              (fun a ha => quote_false_of_space (hW10.2 a ha)) (by decide) (by decide) heq29
            rw [show strL "UA\"" = strL "UA" ++ '"' :: ([] : List Char) from rfl] at heq30
            obtain ⟨rfl, -, heq31⟩ := chew (p := fun a => a == '"') (strL "UA") (by decide)
              (fun a ha => quote_false_of_pNQ (hG11 a ha)) (by decide) (by decide) heq30
            rw [List.append_nil] at heq31
            subst heq31
            exact ⟨rfl, hG8.2, hcaps⟩

/-- C3: over the canonical line family (every other field fixed to the
spec's worked example, the status slot ranging over all whitespace-free
strings), `parse_line` succeeds exactly when the status field is exactly
three ASCII digits: fewer or more digits, non-digit characters, or any
other shape fail the whole line and produce no record. -/
theorem c3_status_three_ascii_digits (s : List Char)
    (hsp : ∀ x ∈ s, rsSpace x = false) :
    (parse_line (statusLine s)).isSome = true ↔
      (s.length = 3 ∧ ∀ x ∈ s, asciiDigit x = true) := by
  constructor
  · intro h
    obtain ⟨row, hrow⟩ := Option.isSome_iff_exists.mp h
    obtain ⟨caps, ts, st, b, hc, -, -, -, -⟩ := parse_line_inv hrow
    have hd := statusLine_decomp s hsp (logPattern_inv (MRe_of_reCaptures hc))
    exact ⟨hd.1, hd.2.1⟩
  · rintro ⟨hlen, hdig⟩
    obtain ⟨c0, c1, c2, rfl⟩ := List.length_eq_three.mp hlen
    obtain ⟨caps0, hm0⟩ := statusLine_construct c0 c1 c2
      (hdig _ (by simp)) (hdig _ (by simp)) (hdig _ (by simp))
    obtain ⟨caps, hc⟩ := Option.isSome_iff_exists.mp (reCaptures_isSome_of_MRe hm0)
    have hd := statusLine_decomp [c0, c1, c2] hsp (logPattern_inv (MRe_of_reCaptures hc))
    rw [hd.2.2] at hc
    obtain ⟨ts, hts⟩ : ∃ t, parse_ts (capGet
      [(11, strL "UA"), (10, strL "US"), (9, strL "512"), (8, [c0, c1, c2]),
       (7, strL "HTTP/1.1"), (6, strL "http://e/"), (5, strL "GET"),
       (4, strL "15/Feb/2026:00:00:04 +0000"), (3, strL "joe"),
       (2, ['-']), (1, strL "203.0.113.5")] 4) = some t := ⟨_, rfl⟩
    obtain ⟨v, hv⟩ := parseI32_three_digits c0 c1 c2
      (hdig _ (by simp)) (hdig _ (by simp)) (hdig _ (by simp))
    obtain ⟨b, hb⟩ : ∃ x, bytesField (capGet
      [(11, strL "UA"), (10, strL "US"), (9, strL "512"), (8, [c0, c1, c2]),
       (7, strL "HTTP/1.1"), (6, strL "http://e/"), (5, strL "GET"),
       (4, strL "15/Feb/2026:00:00:04 +0000"), (3, strL "joe"),
       (2, ['-']), (1, strL "203.0.113.5")] 9) = some x := ⟨_, rfl⟩
    rw [parse_line_eq_of (statusLine [c0, c1, c2]) _ ts v b hc hts hv hb]
    rfl

/-- C3 witness: `200` is three ASCII digits and the line is accepted. -/
theorem c3_status_witness :
    (∀ x ∈ strL "200", rsSpace x = false) ∧
    (parse_line (statusLine (strL "200"))).isSome = true :=
  ⟨by decide, (c3_status_three_ascii_digits (strL "200") (by decide)).mpr (by decide)⟩

end Ezvis
